import Mathlib

/-!
Verification development for the trending-topics dashboard server.

The TypeScript sources are shallowly embedded: strings are `List Char`
(all inputs considered here are ASCII, where JavaScript string `.length`
in UTF-16 code units coincides with the character count), JavaScript
numbers that hold integers are `Nat`/`Int`, `Date` timestamps are `Nat`
milliseconds since the epoch, exceptions are `Except`, and the JavaScript
regular expressions of the parsing pipeline are translated one by one
into deterministic scanners that implement the exact backtracking
behaviour of each concrete pattern.
-/

namespace TrendingModel

/-- Text is modelled as a list of characters. -/
abbrev Text := List Char

/-- Literal helper: convert a Lean string literal to the `Text` model. -/
def lit (s : String) : Text := s.toList

/-- The open-brace character. -/
def obr : Char := Char.ofNat 123

/-- The close-brace character. -/
def cbr : Char := Char.ofNat 125

/-- The apostrophe character. -/
def apos : Char := Char.ofNat 39

/-- JavaScript whitespace class `\s` (ASCII part: space, tab, LF, VT, FF, CR). -/
def jsSpace (c : Char) : Bool :=
  c = ' ' || c = '\t' || c = '\n' || c = '\x0b' || c = '\x0c' || c = '\r'

/-- JSON whitespace (space, tab, LF, CR), as accepted by `JSON.parse`. -/
def jsonWs (c : Char) : Bool :=
  c = ' ' || c = '\t' || c = '\n' || c = '\r'

/-- JavaScript `String.prototype.trim` (ASCII whitespace model). -/
def jsTrim (s : Text) : Text :=
  ((s.dropWhile jsSpace).reverse.dropWhile jsSpace).reverse

/-- First index at which `pat` occurs as a contiguous sublist of `s`. -/
def subIndex? (pat : Text) : Text → Option Nat
  | [] => if pat.isEmpty then some 0 else none
  | s@(_ :: rest) =>
    if pat.isPrefixOf s then some 0
    else (subIndex? pat rest).map (· + 1)

/-- JavaScript `String.prototype.includes`. -/
def containsSub (s pat : Text) : Bool := (subIndex? pat s).isSome

/-- JavaScript `String.prototype.endsWith`. -/
def endsWithSub (s pat : Text) : Bool := pat.isSuffixOf s

/-- Lower-case a text (JavaScript `toLowerCase`, ASCII model). -/
def lowerText (s : Text) : Text := s.map Char.toLower

/-- Case-insensitive first occurrence of `pat` in `s`. -/
def subIndexCI? (pat s : Text) : Option Nat :=
  subIndex? (lowerText pat) (lowerText s)

/-- Characters that `encodeURIComponent` leaves unescaped. -/
def uriUnreserved (c : Char) : Bool :=
  c.isAlpha && c.toNat < 128 || c.isDigit ||
  c = '-' || c = '_' || c = '.' || c = '!' || c = '~' || c = '*' ||
  c = apos || c = '(' || c = ')'

/-- Upper-case hexadecimal digit for a value below 16. -/
def hexDigit (n : Nat) : Char :=
  if n < 10 then Char.ofNat (48 + n) else Char.ofNat (55 + n)

/-- UTF-8 bytes of a character. -/
def utf8Bytes (c : Char) : List Nat :=
  let n := c.toNat
  if n < 0x80 then [n]
  else if n < 0x800 then [0xc0 ||| (n >>> 6), 0x80 ||| (n &&& 0x3f)]
  else if n < 0x10000 then
    [0xe0 ||| (n >>> 12), 0x80 ||| ((n >>> 6) &&& 0x3f), 0x80 ||| (n &&& 0x3f)]
  else
    [0xf0 ||| (n >>> 18), 0x80 ||| ((n >>> 12) &&& 0x3f),
     0x80 ||| ((n >>> 6) &&& 0x3f), 0x80 ||| (n &&& 0x3f)]

/-- JavaScript `encodeURIComponent`. -/
def encodeURIComponent (s : Text) : Text :=
  s.flatMap fun c =>
    if uriUnreserved c then [c]
    else (utf8Bytes c).flatMap fun b => ['%', hexDigit (b / 16), hexDigit (b % 16)]

deriving instance DecidableEq for Except

/-- A trending topic as produced by the server (shared `TrendingTopic` type). -/
structure TrendingTopic where
  title : Text
  summary : Text
  searchUrl : Text
deriving Repr, DecidableEq, Inhabited

/-- A per-keyword result (shared `TrendingData` type); `lastUpdated` is a
millisecond timestamp. -/
structure TrendingData where
  keyword : Text
  topics : List TrendingTopic
  lastUpdated : Nat
  cached : Bool
deriving Repr, DecidableEq, Inhabited

/-- Model of `KeywordTopics`, the per-keyword shape returned by the OpenAI service layer. -/
structure KeywordTopics where
  keyword : Text
  topics : List TrendingTopic
deriving Repr, DecidableEq, Inhabited

/-! ## JSON values and `JSON.parse`

`JSON.parse` is embedded as a total recursive-descent parser over the
character list.  The only error distinction the source consults is whether
the thrown message contains `Unterminated string` (Node 20 / V8 11 wording
for an end of input inside a string literal), so errors carry just that bit. -/

inductive Json where
  | jnull
  | jbool (b : Bool)
  | jnum (raw : Text)
  | jstr (s : Text)
  | jarr (xs : List Json)
  | jobj (fields : List (Text × Json))
deriving Inhabited

inductive JsonErr where
  | unterminatedString
  | otherErr
deriving Repr, DecidableEq

/-- Decoded character of a one-letter escape sequence, if valid. -/
def escChar? (e : Char) : Option Char :=
  if e = '"' || e = '\\' || e = '/' then some e
  else if e = 'b' then some '\x08'
  else if e = 'f' then some '\x0c'
  else if e = 'n' then some '\n'
  else if e = 'r' then some '\r'
  else if e = 't' then some '\t'
  else none

/-- Value of a hexadecimal digit, if it is one. -/
def hexVal? (h : Char) : Option Nat :=
  if h.isDigit then some (h.toNat - 48)
  else if 'a' ≤ h && h ≤ 'f' then some (h.toNat - 87)
  else if 'A' ≤ h && h ≤ 'F' then some (h.toNat - 55)
  else none

/-- Decode one string literal body (after the opening quote).  Reaching the
end of the input inside the literal is the `Unterminated string` error. -/
def lexString : Text → Except JsonErr (Text × Text)
  | [] => .error .unterminatedString
  | c :: rest =>
    if c = '"' then .ok ([], rest)
    else if c = '\\' then
      match rest with
      | [] => .error .unterminatedString
      | 'u' :: h1 :: h2 :: h3 :: h4 :: rest3 =>
        match hexVal? h1, hexVal? h2, hexVal? h3, hexVal? h4 with
        | some a, some b, some c4, some d =>
          (lexString rest3).map fun p =>
            (Char.ofNat (a * 4096 + b * 256 + c4 * 16 + d) :: p.1, p.2)
        | _, _, _, _ => .error .otherErr
      | 'u' :: _ => .error .unterminatedString
      | e :: rest2 =>
        match escChar? e with
        | some d => (lexString rest2).map fun p => (d :: p.1, p.2)
        | none => .error .otherErr
    else if c.toNat < 32 then .error .otherErr
    else (lexString rest).map fun p => (c :: p.1, p.2)

/-- Lex one JSON number (strict grammar), returning its raw characters. -/
def lexNumber (s : Text) : Except JsonErr (Text × Text) :=
  let (sign, s1) := match s with
    | '-' :: r => (['-'], r)
    | _ => (([] : Text), s)
  let intPart : Except JsonErr (Text × Text) :=
    match s1 with
    | '0' :: r => .ok (['0'], r)
    | c :: _ =>
      if c.isDigit then
        let ds := s1.takeWhile Char.isDigit
        .ok (ds, s1.drop ds.length)
      else .error .otherErr
    | [] => .error .otherErr
  match intPart with
  | .error e => .error e
  | .ok (ip, s2) =>
    let (fp, s3) : Text × Text :=
      match s2 with
      | '.' :: r =>
        let ds := r.takeWhile Char.isDigit
        if ds.isEmpty then ([], s2) else ('.' :: ds, r.drop ds.length)
      | _ => ([], s2)
    if fp.isEmpty && (match s2 with | '.' :: _ => true | _ => false) then
      .error .otherErr
    else
      let (ep, s4) : Text × Text :=
        match s3 with
        | e :: r =>
          if e = 'e' || e = 'E' then
            let (sg, r2) := match r with
              | '+' :: r3 => (['+'], r3)
              | '-' :: r3 => (['-'], r3)
              | _ => (([] : Text), r)
            let ds := r2.takeWhile Char.isDigit
            if ds.isEmpty then ([], s3) else (e :: (sg ++ ds), r2.drop ds.length)
          else ([], s3)
        | [] => ([], s3)
      .ok (sign ++ ip ++ fp ++ ep, s4)

/-- Array-element loop of the JSON parser, parameterised by the parser for
one value (fuel bounds the number of elements). -/
def arrItemsWith (pv : Text → Except JsonErr (Json × Text)) :
    Nat → Text → List Json → Except JsonErr (Json × Text)
  | 0, _, _ => .error .otherErr
  | fuel + 1, r, acc =>
    match pv r with
    | .error e => .error e
    | .ok (v, r2) =>
      match r2.dropWhile jsonWs with
      | ',' :: r3 => arrItemsWith pv fuel r3 (v :: acc)
      | ']' :: r3 => .ok (.jarr (acc.reverse ++ [v]), r3)
      | _ => .error .otherErr

/-- Object-member loop of the JSON parser, parameterised by the parser for
one value. -/
def objItemsWith (pv : Text → Except JsonErr (Json × Text)) :
    Nat → Text → List (Text × Json) → Except JsonErr (Json × Text)
  | 0, _, _ => .error .otherErr
  | fuel + 1, r, acc =>
    match r.dropWhile jsonWs with
    | '"' :: r1 =>
      match lexString r1 with
      | .error e => .error e
      | .ok (k, r2) =>
        match r2.dropWhile jsonWs with
        | ':' :: r3 =>
          match pv r3 with
          | .error e => .error e
          | .ok (v, r4) =>
            match r4.dropWhile jsonWs with
            | ',' :: r5 => objItemsWith pv fuel r5 ((k, v) :: acc)
            | d :: r5 =>
              if d = cbr then .ok (.jobj (acc.reverse ++ [(k, v)]), r5)
              else .error .otherErr
            | [] => .error .otherErr
        | _ => .error .otherErr
    | _ => .error .otherErr

/-- Recursive-descent `JSON.parse` core, with fuel bounding nesting depth. -/
def parseVal : Nat → Text → Except JsonErr (Json × Text)
  | 0, _ => .error .otherErr
  | fuel + 1, s =>
    let s := s.dropWhile jsonWs
    match s with
    | [] => .error .otherErr
    | c :: rest =>
      if c = '"' then
        match lexString rest with
        | .ok (t, r) => .ok (.jstr t, r)
        | .error e => .error e
      else if c = '[' then
        match rest.dropWhile jsonWs with
        | ']' :: r => .ok (.jarr [], r)
        | _ => arrItemsWith (parseVal fuel) (rest.length + 1) rest []
      else if c = obr then
        match rest.dropWhile jsonWs with
        | d :: r =>
          if d = cbr then .ok (.jobj [], r)
          else objItemsWith (parseVal fuel) (rest.length + 1) rest []
        | [] => objItemsWith (parseVal fuel) (rest.length + 1) rest []
      else if (lit "true").isPrefixOf s then .ok (.jbool true, s.drop 4)
      else if (lit "false").isPrefixOf s then .ok (.jbool false, s.drop 5)
      else if (lit "null").isPrefixOf s then .ok (.jnull, s.drop 4)
      else if c = '-' || c.isDigit then
        match lexNumber s with
        | .ok (raw, r) => .ok (.jnum raw, r)
        | .error e => .error e
      else .error .otherErr

/-- Model of `JSON.parse`: parse one value and require only whitespace afterwards. -/
def jsonParse (s : Text) : Except JsonErr Json :=
  match parseVal (s.length + 1) s with
  | .ok (v, rest) =>
    if (rest.dropWhile jsonWs).isEmpty then .ok v else .error .otherErr
  | .error e => .error e

/-- Field access on a parsed object; `JSON.parse` keeps the last duplicate. -/
def Json.getField (j : Json) (name : Text) : Option Json :=
  match j with
  | .jobj fields => (fields.reverse.find? fun p => p.1 = name).map (·.2)
  | _ => none

/-- Escape one character as inside `JSON.stringify` string output. -/
def jsonEscapeChar (c : Char) : Text :=
  if c = '"' then ['\\', '"']
  else if c = '\\' then ['\\', '\\']
  else if c = '\n' then ['\\', 'n']
  else if c = '\r' then ['\\', 'r']
  else if c = '\t' then ['\\', 't']
  else if c = '\x08' then ['\\', 'b']
  else if c = '\x0c' then ['\\', 'f']
  else if c.toNat < 32 then
    ['\\', 'u', '0', '0', hexDigit (c.toNat / 16), hexDigit (c.toNat % 16)]
  else [c]

/-- Model of `JSON.stringify` of a string value. -/
def jsonQuote (s : Text) : Text := '"' :: s.flatMap jsonEscapeChar ++ ['"']

/-! ## Elementary pattern-matching combinators

Each JavaScript regular expression of `openaiService.ts` is translated into
a deterministic scanner.  A matcher takes the text at the current position
and returns the remainder after the match (plus captures). -/

/-- Consume a literal. -/
def expectLit (p s : Text) : Option Text :=
  if p.isPrefixOf s then some (s.drop p.length) else none

/-- Consume one given character. -/
def expectCh (c : Char) : Text → Option Text
  | x :: r => if x = c then some r else none
  | [] => none

/-- Consume `\s*` (greedy). -/
def dropSp (s : Text) : Text := s.dropWhile jsSpace

/-- Consume `([^"]+)"`: a nonempty quote-free capture up to a consumed
closing quote. -/
def captureToQuote (s : Text) : Option (Text × Text) :=
  let t := s.takeWhile (· ≠ '"')
  if t.isEmpty then none
  else
    match s.drop t.length with
    | '"' :: r => some (t, r)
    | _ => none

/-- Consume `([^"]*)"`: a possibly empty quote-free capture up to a consumed
closing quote. -/
def captureToQuote0 (s : Text) : Option (Text × Text) :=
  let t := s.takeWhile (· ≠ '"')
  match s.drop t.length with
  | '"' :: r => some (t, r)
  | _ => none

/-- Try a matcher at every start position, left to right (the first match is
the leftmost, as for a JavaScript regular expression search). -/
def scanStarts {α : Type} (f : Text → Option α) : Text → Option α
  | [] => f []
  | s@(_ :: rest) =>
    match f s with
    | some r => some r
    | none => scanStarts f rest

/-- Collect all matches of an object matcher, resuming after each match as a
`/g`-flagged `exec` loop does (a matcher returns captures and the remainder).
The fuel starts at the text length plus one; every step consumes at least
one character. -/
def scanMatches (m : Text → Option (Text × Text × Text)) :
    Nat → Text → List (Text × Text)
  | 0, _ => []
  | _, [] => []
  | fuel + 1, s@(_ :: rest) =>
    match m s with
    | some (t, sm, after) => (t, sm) :: scanMatches m fuel after
    | none => scanMatches m fuel rest

/-- Generic `String.prototype.replace` with a `/g` flag: `step` recognises a
pattern at the current position and yields the replacement together with the
remainder (consuming at least one character); otherwise one character is
copied.  Matching never rescans replaced output, as in JavaScript. -/
def replaceScanF (step : Text → Option (Text × Text)) : Nat → Text → Text
  | 0, s => s
  | _, [] => []
  | fuel + 1, c :: rest =>
    match step (c :: rest) with
    | some (e, r) => e ++ replaceScanF step fuel r
    | none => c :: replaceScanF step fuel rest

/-- Count occurrences of a character (for the `match(/\{/g)` length counts). -/
def countCh (c : Char) (s : Text) : Nat := s.countP (· = c)

/-- The fixed prefix of a Google search URL built by the service. -/
def googleSearch (q : Text) : Text :=
  lit "https://www.google.com/search?q=" ++ encodeURIComponent q

namespace OpenAIService

/-! ## `parseWebSearchResponse` (src/src/server/src/services/openaiService.ts)

### JSON candidate extraction (the seven `jsonPatterns`) -/

/-- Candidate of `/\[[\s\S]*?\]/`: from the first `[` to the earliest `]`
after it (lazy), brackets included.  Also pattern 4, whose capture is the
same span. -/
def lazyArrayFrom (s : Text) : Option Text :=
  match subIndex? ['['] s with
  | none => none
  | some i =>
    let afterOpen := s.drop (i + 1)
    match subIndex? [']'] afterOpen with
    | none => none
    | some j => some ('[' :: (afterOpen.take j ++ [']']))

/-- Lazy search for the closing `]`: the body may swallow earlier `]`
characters whose tail check fails, exactly as `[\s\S]*?` backtracks. -/
def lazyClose (check : Text → Bool) : Text → Text → Option (Text × Text)
  | _, [] => none
  | acc, c :: rest =>
    if c = ']' && check rest then some (acc.reverse, rest)
    else lazyClose check (c :: acc) rest

/-- Candidate of a fenced pattern ``/`fence`\s*(\[[\s\S]*?\])\s*```/``:
tried at each occurrence of the fence. -/
def fencedArray (fence : Text) (s : Text) : Option Text :=
  scanStarts
    (fun t => do
      let r ← expectLit fence t
      let r1 ← expectCh '[' (dropSp r)
      let (body, _) ← lazyClose
        (fun after => ((expectLit (lit "```") (dropSp after)).isSome)) [] r1
      return '[' :: (body ++ [']'])) s

/-- Candidate of `/JSON ARRAY:\s*(\[[\s\S]*?\])/`. -/
def markerArray (marker : Text) (s : Text) : Option Text :=
  scanStarts
    (fun t => do
      let r ← expectLit marker t
      let r1 ← expectCh '[' (dropSp r)
      let (body, _) ← lazyClose (fun _ => true) [] r1
      return '[' :: (body ++ [']'])) s

/-- Scan for an opening bracket before the next newline (the `.*?\[` part
of the marker patterns, whose dot does not cross a newline); returns the
remainder after the bracket. -/
def toBracket : Text → Option Text
  | [] => none
  | c :: rest =>
    if c = '[' then some rest
    else if c = '\n' then none
    else toBracket rest

/-- Candidate of `/marker.*?(\[[\s\S]*?\])/i`: the `.` does not cross a
newline, so the `[` must sit on the same line as the marker; the capture
then runs to the earliest `]` anywhere after it. -/
def lineMarkerArray (marker : Text) (s : Text) : Option Text :=
  scanStarts
    (fun t =>
      if (lowerText marker).isPrefixOf (lowerText t) then do
        let r1 ← toBracket (t.drop marker.length)
        let (body, _) ← lazyClose (fun _ => true) [] r1
        return '[' :: (body ++ [']'])
      else none) s

/-- The seven `jsonPatterns`, in source order; for every pattern the
processed string `match[1] || match[0]` is the captured bracket span. -/
def jsonCandidates (content : Text) : List (Option Text) :=
  [ lazyArrayFrom content,
    fencedArray (lit "```json") content,
    fencedArray (lit "```") content,
    lazyArrayFrom content,
    markerArray (lit "JSON ARRAY:") content,
    lineMarkerArray (lit "Here are") content,
    lineMarkerArray (lit "topics") content ]

/-! ### The cleanup pass -/

/-- Remove the code fences: replace each fence token by the empty string. -/
def removeFences (s : Text) : Text :=
  replaceScanF
    (fun t =>
      match expectLit (lit "```json") t with
      | some r => some ([], r)
      | none => (expectLit (lit "```") t).map (fun r => ([], r)))
    s.length s

/-- Model of `replace(/,\s*X/g, 'X')` for a closing bracket or brace. -/
def dropTrailingComma (x : Char) (s : Text) : Text :=
  replaceScanF
    (fun t => do
      let r ← expectCh ',' t
      let r2 ← expectCh x (dropSp r)
      return ([x], r2))
    s.length s

/-- Model of `replace(/[\r\n\t]/g, ' ')`. -/
def breaksToSpace (s : Text) : Text :=
  s.map fun c => if c = '\r' || c = '\n' || c = '\t' then ' ' else c

/-- Model of `replace(/\s+/g, ' ')`. -/
def collapseSpaces (s : Text) : Text :=
  replaceScanF
    (fun t =>
      match t with
      | c :: _ =>
        if jsSpace c then some ([' '], t.dropWhile jsSpace) else none
      | [] => none)
    s.length s

/-- Tighten colon spacing between quotes: the sixth cleanup replacement. -/
def tightenColons (s : Text) : Text :=
  replaceScanF
    (fun t => do
      let r ← expectCh '"' t
      let r2 ← expectCh ':' (dropSp r)
      let r3 ← expectCh '"' (dropSp r2)
      return (['"', ':', '"'], r3))
    s.length s

/-- The comprehensive JSON cleaning block of `parseWebSearchResponse`. -/
def cleanJson (s : Text) : Text :=
  jsTrim (tightenColons (collapseSpaces (breaksToSpace
    (dropTrailingComma cbr (dropTrailingComma ']' (removeFences s))))))

/-! ### Truncation detection -/

/-- Does `\{\s*"title"` match at the head; if so return the remainder. -/
def titleBraceRest? (s : Text) : Option Text := do
  let r ← expectCh obr s
  expectLit (lit "\"title\"") (dropSp r)

/-- Third disjunct of `isTruncated`:
`match(/\{\s*"title".*"summary".*[^}]$/)` (no `s` flag, but the cleaned
string has no newlines left).  It needs a `\{\s*"title"` occurrence, a later
`"summary"` literal with at least one character after it, and a final
character that is not a closing brace. -/
def truncChk3 (s : Text) : Bool :=
  let tailOk : Text → Bool := fun r =>
    match subIndex? (lit "\"summary\"") r with
    | some j => j + 9 < r.length
    | none => false
  let rec anyStart : Text → Bool
    | [] => false
    | t@(_ :: rest) =>
      (match titleBraceRest? t with
       | some r => tailOk r
       | none => false) || anyStart rest
  (match s.getLast? with
   | some c => c ≠ cbr
   | none => false) && anyStart s

/-- The `isTruncated` heuristic (four disjuncts, in source order). -/
def isTruncated (s : Text) : Bool :=
  (endsWithSub s (lit "\"") && !endsWithSub s (lit "\"\x7d") &&
    !endsWithSub s (lit "\"]")) ||
  (containsSub s (lit "\x7b\"title\"") && !endsWithSub (jsTrim s) (lit "]")) ||
  truncChk3 s ||
  decide (countCh obr s > countCh cbr s)

/-! ### Object harvesting (`repairTruncatedJson` patterns and the
corrupted-JSON salvage) -/

/-- Shared head `\{\s*"title"\s*:\s*"([^"]+)"\s*,\s*"summary"\s*:\s*"` of
every object pattern; returns the title capture and the position right
after the opening quote of the summary value. -/
def matchTitleSummaryHead (s : Text) : Option (Text × Text) := do
  let s1 ← expectCh obr s
  let s2 ← expectLit (lit "\"title\"") (dropSp s1)
  let s3 ← expectCh ':' (dropSp s2)
  let s4 ← expectCh '"' (dropSp s3)
  let (t, s5) ← captureToQuote s4
  let s6 ← expectCh ',' (dropSp s5)
  let s7 ← expectLit (lit "\"summary\"") (dropSp s6)
  let s8 ← expectCh ':' (dropSp s7)
  let s9 ← expectCh '"' (dropSp s8)
  return (t, s9)

/-- Model of `\s*\}` (the close of an object pattern). -/
def closeObj (s : Text) : Option Text := expectCh cbr (dropSp s)

/-- One optional extra field `,\s*"[^"]*"\s*:\s*"[^"]*"`. -/
def matchOneExtra (s : Text) : Option Text := do
  let s1 ← expectCh ',' s
  let s2 ← expectCh '"' (dropSp s1)
  let (_, s3) ← captureToQuote0 s2
  let s4 ← expectCh ':' (dropSp s3)
  let s5 ← expectCh '"' (dropSp s4)
  let (_, s6) ← captureToQuote0 s5
  return s6

/-- Model of `(?:,\s*"[^"]*"\s*:\s*"[^"]*")*\s*\}` with the greedy star giving one
repetition back at a time when the close fails. -/
def extrasClose : Nat → Text → Option Text
  | 0, s => closeObj s
  | fuel + 1, s =>
    match matchOneExtra s with
    | some s2 =>
      (match extrasClose fuel s2 with
       | some r => some r
       | none => closeObj s)
    | none => closeObj s

/-- Repair pattern 1:
`\{…"summary"\s*:\s*"([^"]+)"\s*(?:,\s*"[^"]*"\s*:\s*"[^"]*")*\s*\}`. -/
def repairPat1 (s : Text) : Option (Text × Text × Text) := do
  let (t, s9) ← matchTitleSummaryHead s
  let (sm, s10) ← captureToQuote s9
  let r ← extrasClose s10.length (dropSp s10)
  return (t, sm, r)

/-- The mandatory `,\s*"url"\s*:\s*"[^"]+"` part of repair patterns 2/3. -/
def matchUrlField (s : Text) : Option Text := do
  let s1 ← expectCh ',' (dropSp s)
  let s2 ← expectLit (lit "\"url\"") (dropSp s1)
  let s3 ← expectCh ':' (dropSp s2)
  let s4 ← expectCh '"' (dropSp s3)
  let (_, s5) ← captureToQuote s4
  return s5

/-- Repair pattern 2: like pattern 1 with a mandatory `url` field. -/
def repairPat2 (s : Text) : Option (Text × Text × Text) := do
  let (t, s9) ← matchTitleSummaryHead s
  let (sm, s10) ← captureToQuote s9
  let s11 ← matchUrlField s10
  let r ← extrasClose s11.length (dropSp s11)
  return (t, sm, r)

/-- Repair pattern 3: mandatory `url` and `image_query` fields, then `\s*\}`. -/
def repairPat3 (s : Text) : Option (Text × Text × Text) := do
  let (t, s9) ← matchTitleSummaryHead s
  let (sm, s10) ← captureToQuote s9
  let s11 ← matchUrlField s10
  let s12 ← expectCh ',' (dropSp s11)
  let s13 ← expectLit (lit "\"image_query\"") (dropSp s12)
  let s14 ← expectCh ':' (dropSp s13)
  let s15 ← expectCh '"' (dropSp s14)
  let (_, s16) ← captureToQuote s15
  let r ← closeObj s16
  return (t, sm, r)

/-- One `while` iteration of the harvesting loop of `repairTruncatedJson`:
the `< 10` cap, the raw length filters and the trimmed-title duplicate
check. -/
def repairStep (acc : List (Text × Text)) (m : Text × Text) :
    List (Text × Text) :=
  if acc.length < 10 then
    if m.1.length > 3 && m.2.length > 10 then
      if acc.any (fun o => o.1 = jsTrim m.1) then acc
      else acc ++ [(jsTrim m.1, jsTrim m.2)]
    else acc
  else acc

/-- The harvesting loop of `repairTruncatedJson`: fold the match stream of
the three patterns (run one after the other). -/
def repairFold (ms : List (Text × Text)) : List (Text × Text) :=
  ms.foldl repairStep []

/-- Model of `JSON.stringify` of the harvested `{title, summary}` objects. -/
def stringifyObjs (objs : List (Text × Text)) : Text :=
  '[' ::
    (List.intercalate [',']
      (objs.map fun o =>
        obr :: (lit "\"title\":" ++ jsonQuote o.1 ++ lit ",\"summary\":" ++
          jsonQuote o.2 ++ [cbr])) ++ [']'])

/-- Strip one trailing comma (with trailing
whitespace) at the very end. -/
def stripTrailingCommaEnd (s : Text) : Text :=
  let r := s.reverse.dropWhile jsSpace
  match r with
  | ',' :: r2 => r2.reverse
  | _ => s

/-- Index of the last occurrence of a character (`lastIndexOf`). -/
def lastIndexOfCh (c : Char) (s : Text) : Option Nat :=
  (subIndex? [c] s.reverse).map (fun j => s.length - 1 - j)

/-- The `completeObjects` harvested by `repairTruncatedJson`: all three
patterns scanned over the whole string, folded through the harvesting
loop. -/
def repairObjects (jsonString : Text) : List (Text × Text) :=
  let fuel := jsonString.length + 1
  repairFold
    (scanMatches repairPat1 fuel jsonString ++
     scanMatches repairPat2 fuel jsonString ++
     scanMatches repairPat3 fuel jsonString)

/-- Model of `repairTruncatedJson` (src/src/server/src/services/openaiService.ts,
lines 413–476). -/
def repairTruncatedJson (jsonString : Text) : Text :=
  let completeObjects := repairObjects jsonString
  if completeObjects.length > 0 then stringifyObjs completeObjects
  else if containsSub jsonString (lit "\"title\":") &&
      containsSub jsonString (lit "\"summary\":") then
    match lastIndexOfCh cbr jsonString with
    | some i =>
      let truncated := jsonString.take (i + 1)
      if !endsWithSub (jsTrim truncated) (lit "]") &&
          containsSub truncated (lit "[") then
        stripTrailingCommaEnd truncated ++ [']']
      else truncated
    | none => jsonString
  else jsonString

/-! ### Corrupted-JSON salvage -/

/-- Single-line salvage pattern
`/\{\s*"title"\s*:\s*"([^"]+)"\s*,\s*"summary"\s*:\s*"([^"]+)"\s*\}/g`. -/
def salvagePat (s : Text) : Option (Text × Text × Text) := do
  let (t, s9) ← matchTitleSummaryHead s
  let (sm, s10) ← captureToQuote s9
  let r ← closeObj s10
  return (t, sm, r)

/-- Lazy tail `(?:[^"\\]|\\.)*?"\s*\}` of the multi-line summary capture: at
each step first try to close with `"\s*\}`; otherwise consume one ordinary
character or a backslash together with the character it escapes; a bare
quote that cannot close is a dead end. -/
def tryBLazy : Nat → Text → Text → Option (Text × Text)
  | 0, _, _ => none
  | fuel + 1, acc, s =>
    match (do
        let s1 ← expectCh '"' s
        closeObj s1) with
    | some rest => some (acc.reverse, rest)
    | none =>
      match s with
      | [] => none
      | c :: rest =>
        if c = '"' then none
        else if c = '\\' then
          match rest with
          | d :: rest2 => tryBLazy fuel (d :: '\\' :: acc) rest2
          | [] => none
        else tryBLazy fuel (c :: acc) rest

/-- Multi-line summary capture `([^"]*(?:[^"\\]|\\.)*?)"\s*\}`: the greedy
`[^"]*` prefix shrinks from its maximal extent, the remainder running the
lazy tail. -/
def summaryTailMulti (s : Text) : Option (Text × Text) :=
  let tryStart (a : Nat) : Option (Text × Text) :=
    (tryBLazy (s.length + 1) ((s.take a).reverse) (s.drop a)).map
      (fun p => (p.1, p.2))
  let rec go : Nat → Option (Text × Text)
    | 0 => tryStart 0
    | a + 1 =>
      match tryStart (a + 1) with
      | some r => some r
      | none => go a
  go (s.takeWhile (· ≠ '"')).length

/-- Multi-line salvage pattern (the `/gs`-flagged one). -/
def salvagePatMulti (s : Text) : Option (Text × Text × Text) := do
  let (t, s9) ← matchTitleSummaryHead s
  let (sm, r) ← summaryTailMulti s9
  return (t, sm, r)

/-- Model of `replace(/\\"/g, '"')` (unescape embedded quotes in a salvaged summary). -/
def unescapeQuotes (s : Text) : Text :=
  replaceScanF
    (fun t =>
      match t with
      | '\\' :: '"' :: r => some (['"'], r)
      | _ => none)
    s.length s

/-- One iteration of the single-line salvage loop: the `< 5` cap and the
raw length filters, without a duplicate check. -/
def salvStep1 (keyword : Text) (acc : List TrendingTopic) (m : Text × Text) :
    List TrendingTopic :=
  if acc.length < 5 then
    if m.1.length > 5 && m.2.length > 10 then
      acc ++ [{ title := jsTrim m.1, summary := jsTrim m.2,
                searchUrl := googleSearch (keyword ++ [' '] ++ jsTrim m.1) }]
    else acc
  else acc

/-- First phase of `extractValidObjectsFromCorruptedJson`: the single-line
scan. -/
def salvagePhase1 (jsonString keyword : Text) : List TrendingTopic :=
  (scanMatches salvagePat (jsonString.length + 1) jsonString).foldl
    (salvStep1 keyword) []

/-- One iteration of the multi-line salvage loop: the `< 5` cap (counting
everything collected so far), the raw length filters, and the trimmed-title
duplicate check against everything collected so far. -/
def salvStep2 (keyword : Text) (acc : List TrendingTopic) (m : Text × Text) :
    List TrendingTopic :=
  if acc.length < 5 then
    if m.1.length > 5 && m.2.length > 10 then
      if acc.any (fun t => t.title = jsTrim m.1) then acc
      else acc ++ [{ title := jsTrim m.1,
                     summary := unescapeQuotes (jsTrim m.2),
                     searchUrl := googleSearch (keyword ++ [' '] ++ jsTrim m.1) }]
    else acc
  else acc

/-- Second phase: the multi-line scan, continuing from the first phase. -/
def salvagePhase2 (jsonString keyword : Text) (start : List TrendingTopic) :
    List TrendingTopic :=
  (scanMatches salvagePatMulti (jsonString.length + 1) jsonString).foldl
    (salvStep2 keyword) start

/-- Model of `extractValidObjectsFromCorruptedJson` (lines 370–411). -/
def extractValidObjectsFromCorruptedJson (jsonString keyword : Text) :
    List TrendingTopic :=
  salvagePhase2 jsonString keyword (salvagePhase1 jsonString keyword)

/-! ### The JSON-path validity filter and topic construction -/

/-- The `validTopics` predicate: a parsed element survives when it is an
object whose `title` and `summary` fields are truthy strings with trimmed
lengths above 5 and 10 respectively. -/
def validTopicFilter (j : Json) : Bool :=
  match j.getField (lit "title"), j.getField (lit "summary") with
  | some (.jstr t), some (.jstr sm) =>
    !t.isEmpty && !sm.isEmpty &&
      decide ((jsTrim t).length > 5) && decide ((jsTrim sm).length > 10)
  | _, _ => false

/-- Build the returned topic from a surviving element (title and summary
trimmed, search URL from the trimmed title alone). -/
def mkJsonTopic (j : Json) : TrendingTopic :=
  let t := match j.getField (lit "title") with
    | some (.jstr t) => t
    | _ => []
  let sm := match j.getField (lit "summary") with
    | some (.jstr sm) => sm
    | _ => []
  { title := jsTrim t, summary := jsTrim sm,
    searchUrl := googleSearch (jsTrim t) }

/-- Handle one extracted candidate inside the pattern loop: clean, repair
when the truncation heuristic fires, deserialize, filter; a JSON error whose
message reports an unterminated string triggers the corrupted-JSON salvage
on the uncleaned candidate.  `none` means the loop moves to the next
pattern. -/
def processCandidate (keyword cand : Text) : Option (List TrendingTopic) :=
  let cleaned := cleanJson cand
  let repaired := if isTruncated cleaned then repairTruncatedJson cleaned
    else cleaned
  match jsonParse repaired with
  | .ok (.jarr xs) =>
    if xs.isEmpty then none
    else
      let valid := xs.filter validTopicFilter
      if valid.isEmpty then none else some (valid.map mkJsonTopic)
  | .ok _ => none
  | .error e =>
    if e = .unterminatedString then
      let ex := extractValidObjectsFromCorruptedJson cand keyword
      if ex.isEmpty then none else some ex
    else none

/-! ### Structured text extraction -/

/-- Does `\d+\.` match at the head (the lookahead of the segment split)? -/
def digitsDotAt (s : Text) : Bool :=
  let ds := s.takeWhile Char.isDigit
  !ds.isEmpty && (expectCh '.' (s.drop ds.length)).isSome

/-- Model of `split(/\n\n+|\n(?=\d+\.)/)`: split on runs of at least two newlines, or
on a single newline immediately followed by a numbered-item marker (the
lookahead is not consumed). -/
def splitSegGo : Nat → Text → Text → List Text
  | 0, cur, s => [cur.reverse ++ s]
  | _, cur, [] => [cur.reverse]
  | fuel + 1, cur, '\n' :: rest =>
    if (expectCh '\n' rest).isSome then
      cur.reverse :: splitSegGo fuel [] (rest.dropWhile (· = '\n'))
    else if digitsDotAt rest then
      cur.reverse :: splitSegGo fuel [] rest
    else splitSegGo fuel ('\n' :: cur) rest
  | fuel + 1, cur, c :: rest => splitSegGo fuel (c :: cur) rest

/-- The paragraph-like segments of the raw content. -/
def splitSegments (s : Text) : List Text := splitSegGo (s.length + 1) [] s

/-- Strip a leading and a trailing `**` (the anchored global replace). -/
def stripStars2 (s : Text) : Text :=
  let s1 := match expectLit (lit "**") s with
    | some r => r
    | none => s
  if endsWithSub s1 (lit "**") then s1.take (s1.length - 2) else s1

/-- Segment pattern 1, `/^\d+\.\s*([^\n\-:]+)[\-:]\s*(.+)/s`: a numbered
item `N. Title - Summary` or `N. Title: Summary`.  When everything after
the delimiter is whitespace, the greedy `\s*` gives one character back so
that `(.+)` can still match. -/
def numberedMatch (s : Text) : Option (Text × Text) := do
  let ds := s.takeWhile Char.isDigit
  if ds.isEmpty then none else
  let r1 ← expectCh '.' (s.drop ds.length)
  let sp0 := r1.takeWhile jsSpace
  let r2 := r1.drop sp0.length
  let cap1raw := r2.takeWhile fun c => c ≠ '\n' && c ≠ '-' && c ≠ ':'
  let (cap1, r3) ←
    if cap1raw.isEmpty then
      match sp0.getLast? with
      | some c => some ([c], r2)
      | none => none
    else some (cap1raw, r2.drop cap1raw.length)
  let r4 ←
    match r3 with
    | c :: r => if c = '-' || c = ':' then some r else none
    | [] => none
  let sp := r4.takeWhile jsSpace
  let r5 := r4.drop sp.length
  let cap2 ←
    if r5.isEmpty then
      match sp.getLast? with
      | some c => some [c]
      | none => none
    else some r5
  return (cap1, cap2)

/-- Segment pattern 2, `/^\*\*([^\*]+)\*\*\s+(.+)/s`: a bold title followed
by text. -/
def boldMatch (s : Text) : Option (Text × Text) := do
  let r ← expectLit (lit "**") s
  let cap1 := r.takeWhile (· ≠ '*')
  if cap1.isEmpty then none else
  let r2 ← expectLit (lit "**") (r.drop cap1.length)
  let sp := r2.takeWhile jsSpace
  if sp.isEmpty then none else
  let r3 := r2.drop sp.length
  let cap2 ←
    if r3.isEmpty then
      if sp.length ≥ 2 then
        match sp.getLast? with
        | some c => some [c]
        | none => none
      else none
    else some r3
  return (cap1, cap2)

/-- The potential-title cleanup replace: one
anchored prefix alternative at position zero, then every `**` occurrence. -/
def stripTitleLine (t : Text) : Text :=
  let afterAnchor :=
    match (do
        let ds := t.takeWhile Char.isDigit
        if ds.isEmpty then none else
        let r ← expectCh '.' (t.drop ds.length)
        some (dropSp r)) with
    | some r => r
    | none =>
      match expectLit (lit "**") t with
      | some r => r
      | none =>
        match t with
        | '-' :: r => dropSp r
        | _ => t
  replaceScanF
    (fun u => (expectLit (lit "**") u).map (fun r => ([], r)))
    afterAnchor.length afterAnchor

/-- Segment pattern 3: first nonblank line as title, remaining nonblank
lines joined as summary, subject to the 10–150 / 20–500 length windows. -/
def twoLineMatch (s : Text) : Option (Text × Text) :=
  let lines := (s.splitOn '\n').filter fun l => (jsTrim l).length > 0
  match lines with
  | l0 :: l1 :: rest =>
    let potentialTitle := stripTitleLine (jsTrim l0)
    let potentialSummary :=
      stripStars2 (jsTrim (List.intercalate [' '] (l1 :: rest)))
    if potentialTitle.length > 10 && potentialTitle.length < 150 &&
        potentialSummary.length > 20 && potentialSummary.length < 500 then
      some (potentialTitle, potentialSummary)
    else none
  | _ => none

/-- One iteration body of the intelligent text-extraction loop over the
segments (`continue` on a short segment, `break` once `maxResults` topics
are collected). -/
def textExtractLoop (maxResults : Nat) : List TrendingTopic → List Text →
    List TrendingTopic
  | acc, [] => acc
  | acc, seg :: rest =>
    if acc.length ≥ maxResults then acc
    else
      let cs := jsTrim seg
      if cs.length < 20 then textExtractLoop maxResults acc rest
      else
        match numberedMatch cs with
        | some (c1, c2) =>
          textExtractLoop maxResults
            (acc ++ [{ title := stripStars2 (jsTrim c1),
                       summary := (stripStars2 (jsTrim c2)).take 300,
                       searchUrl := googleSearch (jsTrim c1) }]) rest
        | none =>
          match boldMatch cs with
          | some (c1, c2) =>
            textExtractLoop maxResults
              (acc ++ [{ title := jsTrim c1,
                         summary := (jsTrim c2).take 300,
                         searchUrl := googleSearch (jsTrim c1) }]) rest
          | none =>
            match twoLineMatch cs with
            | some (t, sm) =>
              textExtractLoop maxResults
                (acc ++ [{ title := t, summary := sm.take 300,
                           searchUrl := googleSearch t }]) rest
            | none => textExtractLoop maxResults acc rest

/-- The intelligent text extraction over the whole raw content. -/
def textExtract (content : Text) (maxResults : Nat) : List TrendingTopic :=
  textExtractLoop maxResults [] (splitSegments content)

/-! ### Aggressive sentence mining -/

/-- Model of `split(/[.!?]+/)`: split on runs of sentence punctuation. -/
def splitPunct (s : Text) : List Text :=
  let isP : Char → Bool := fun c => c = '.' || c = '!' || c = '?'
  let rec go : Nat → Text → Text → List Text
    | 0, cur, r => [cur.reverse ++ r]
    | _, cur, [] => [cur.reverse]
    | fuel + 1, cur, c :: rest =>
      if isP c then cur.reverse :: go fuel [] (rest.dropWhile isP)
      else go fuel (c :: cur) rest
  go (s.length + 1) [] s

/-- Consecutive sentence pairs `(sentences[i], sentences[i+1] || sentences[i])`
for `i = 0, 2, 4, …`. -/
def sentencePairs : List Text → List (Text × Text)
  | [] => []
  | [t] => [(t, t)]
  | t :: sm :: rest => (t, sm) :: sentencePairs rest

/-- One iteration of the aggressive-mining loop over a sentence pair. -/
def aggStep (maxResults : Nat) (acc : List TrendingTopic) (p : Text × Text) :
    List TrendingTopic :=
  if acc.length < maxResults then
    let lt := lowerText p.1
    if !containsSub lt (lit "here are") &&
        !containsSub lt (lit "trending topics") &&
        !containsSub lt (lit "json array") then
      let cleanTitle :=
        (jsTrim (p.1.takeWhile fun c => c ≠ ',' && c ≠ ';')).take 100
      if cleanTitle.length > 15 then
        acc ++ [{ title := cleanTitle,
                  summary := (jsTrim p.2).take 250,
                  searchUrl := googleSearch cleanTitle }]
      else acc
    else acc
  else acc

/-- The sentences considered by the aggressive mining: newlines flattened,
split at sentence punctuation, trimmed, kept when strictly between 30 and
400 characters. -/
def miningSentences (content : Text) : List Text :=
  ((splitPunct (content.map fun c =>
      if c = '\n' then ' ' else c)).map jsTrim).filter
    fun s => s.length > 30 && s.length < 400

/-- Model of `aggressiveTextMining` (lines 478–513). -/
def aggressiveTextMining (content _keyword : Text) (maxResults : Nat) :
    List TrendingTopic :=
  (sentencePairs (miningSentences content)).foldl (aggStep maxResults) []

/-! ### Fallback topics and the driver -/

/-- Model of `getFallbackTopics`. -/
def getFallbackTopics (keyword : Text) : List TrendingTopic :=
  [{ title := lit "Latest " ++ keyword ++ lit " Updates",
     summary := lit "Stay updated with the latest developments and news about "
       ++ keyword ++ lit ". Check back later for fresh trending topics.",
     searchUrl := googleSearch keyword }]

/-- The final fallback of `parseWebSearchResponse` (capitalised keyword). -/
def finalFallbackTopics (keyword : Text) : List TrendingTopic :=
  let cap := match keyword with
    | c :: rest => c.toUpper :: rest
    | [] => []
  [{ title := lit "Current " ++ cap ++ lit " Developments",
     summary := lit "Web search successfully found current information about "
       ++ keyword ++
       lit ", but the response format requires manual review. The system detected real sources and current data.",
     searchUrl := googleSearch (keyword ++ lit " latest news") }]

/-- The pattern loop: the first candidate whose processing returns topics
wins; unmatched patterns and failed candidates are skipped. -/
def patternLoop (keyword : Text) : List (Option Text) →
    Option (List TrendingTopic)
  | [] => none
  | none :: rest => patternLoop keyword rest
  | some cand :: rest =>
    match processCandidate keyword cand with
    | some topics => some topics
    | none => patternLoop keyword rest

/-- Model of `parseWebSearchResponse` (lines 197–366): the strictly ordered strategy
chain.  Every step of the embedding is total, so the outer `catch` branch
(which would return `getFallbackTopics`) is unreachable. -/
def parseWebSearchResponse (content keyword : Text) (maxResults : Nat) :
    List TrendingTopic :=
  match patternLoop keyword (jsonCandidates content) with
  | some topics => topics
  | none =>
    let extracted := textExtract content maxResults
    if !extracted.isEmpty then extracted
    else
      let agg := aggressiveTextMining content keyword maxResults
      if !agg.isEmpty then agg
      else finalFallbackTopics keyword

end OpenAIService

namespace OpenAIService

/-- Model of `OpenAIService.getTrendingTopics` of the web-search service: one entry
per keyword, in order.  The per-keyword network outcome is an oracle input:
`some content` is a raw response handed to the parser, `none` is the
per-keyword `catch` (timeout or failure of every API tier), which
substitutes `getFallbackTopics`. -/
def getTrendingTopicsWeb (oracle : Text → Option Text) (keywords : List Text)
    (maxResults : Nat) : List KeywordTopics :=
  keywords.map fun k =>
    match oracle k with
    | some content => ⟨k, parseWebSearchResponse content k maxResults⟩
    | none => ⟨k, getFallbackTopics k⟩

end OpenAIService

namespace OpenAIServiceBatch

/-! ## The batched `OpenAIService` (src/unnamed/part_009, lines 152–245)

One chat-completion call covers all keywords; `parseResponse` extracts the
`[{keyword, topics}]`-shaped array of the reply. -/

/-- Greedy `/\[[\s\S]*\]/`: from the first `[` to the last `]`. -/
def greedyArraySpan (s : Text) : Option Text :=
  match subIndex? ['['] s with
  | none => none
  | some i =>
    let afterOpen := s.drop (i + 1)
    match OpenAIService.lastIndexOfCh ']' afterOpen with
    | none => none
    | some j => some ('[' :: (afterOpen.take j ++ [']']))

/-- Decode one topic object of a parsed batch item.  The source maps
`topic.title` and `topic.summary` through unchecked; a shape without string
fields is treated as the parse failure that the surrounding `try` turns
into the fallback (the JavaScript original would instead propagate
`undefined` fields, a shape no caller produces). -/
def decodeTopic? (keyword : Text) (j : Json) : Option TrendingTopic :=
  match j.getField (lit "title"), j.getField (lit "summary") with
  | some (.jstr t), some (.jstr sm) =>
    some { title := t, summary := sm,
           searchUrl := googleSearch (keyword ++ [' '] ++ t) }
  | _, _ => none

/-- Decode one batch item `{keyword, topics}`.  A missing or non-array
`topics` field makes `item.topics.map` throw in the source, landing in the
fallback branch. -/
def decodeItem? (j : Json) : Option KeywordTopics :=
  match j.getField (lit "keyword"), j.getField (lit "topics") with
  | some (.jstr k), some (.jarr ts) =>
    (ts.mapM (decodeTopic? k)).map fun topics => ⟨k, topics⟩
  | _, _ => none

/-- Model of `parseResponse` (part_009, lines 221–245): on any failure (no array
found, JSON error, bad shape) the catch returns one fallback entry per
requested keyword; on success the parsed items are returned as they are,
whatever keywords they carry. -/
def parseResponse (content : Text) (keywords : List Text) :
    List KeywordTopics :=
  let fallback := keywords.map fun k => ⟨k, OpenAIService.getFallbackTopics k⟩
  match greedyArraySpan content with
  | none => fallback
  | some span =>
    match jsonParse span with
    | .error _ => fallback
    | .ok (.jarr xs) =>
      match xs.mapM decodeItem? with
      | some items => items
      | none => fallback
    | .ok _ => fallback

/-- Model of `getTrendingTopics` of the batched service: an API failure (or an empty
completion) is rethrown as an error; otherwise the reply text goes through
`parseResponse`. -/
def getTrendingTopics (outcome : Except Unit Text) (keywords : List Text) :
    Except Unit (List KeywordTopics) :=
  match outcome with
  | .error _ => .error ()
  | .ok content => .ok (parseResponse content keywords)

end OpenAIServiceBatch

/-! ## Configuration (config/base.json `limits`) -/

namespace APP_LIMITS

def maxKeywords : Nat := 10

def cacheDurationHours : Nat := 2

def maxResultsPerKeyword : Nat := 10

end APP_LIMITS

namespace CacheService

/-! ## `CacheService` (src/src/server/src/services/cacheService.ts)

The NodeCache and Redis branches keep the same data under the same key with
the same expiry (`stdTTL` resp. `setEx`, both `cacheDurationHours * 3600`
seconds); the store is modelled once as an association list keyed by cache
key, an entry carrying its expiry instant in milliseconds.  `backendFails`
models a backend whose `get`/`set` throw on every call — the `catch`
branches of the source. -/

structure Stats where
  hits : Nat
  misses : Nat
  errors : Nat
deriving Repr, DecidableEq

structure CacheEntry where
  data : TrendingData
  expiry : Nat
deriving Repr, DecidableEq

structure CacheState where
  store : List (Text × CacheEntry)
  stats : Stats
  backendFails : Bool
deriving Repr, DecidableEq

/-- Model of `getCacheKey`: lower-case the keyword and replace every whitespace run
by an underscore, under the `trending:` namespace. -/
def getCacheKey (keyword : Text) : Text :=
  let l := lowerText keyword
  lit "trending:" ++
    replaceScanF
      (fun t =>
        match t with
        | c :: _ => if jsSpace c then some (['_'], t.dropWhile jsSpace) else none
        | [] => none)
      l.length l

/-- Store lookup. -/
def lookupStore (store : List (Text × CacheEntry)) (key : Text) :
    Option CacheEntry :=
  (store.find? (·.1 = key)).map (·.2)

/-- Model of `get` (lines 44–70): a throwing backend increments `errors` and yields
`null`; an expired entry is indistinguishable from a miss; a live entry
counts a hit and is returned as stored. -/
def get (now : Nat) (keyword : Text) (st : CacheState) :
    Option TrendingData × CacheState :=
  if st.backendFails then
    (none, { st with stats := { st.stats with errors := st.stats.errors + 1 } })
  else
    match lookupStore st.store (getCacheKey keyword) with
    | some e =>
      if now < e.expiry then
        (some e.data,
         { st with stats := { st.stats with hits := st.stats.hits + 1 } })
      else
        (none, { st with stats := { st.stats with misses := st.stats.misses + 1 } })
    | none =>
      (none, { st with stats := { st.stats with misses := st.stats.misses + 1 } })

/-- Model of `set` (lines 72–89): stores the record with its `cached` flag forced to
`true`, expiring `ttlSeconds` after `now`; a throwing backend only logs
(`errors` is not counted here). Both source branches pass
`cacheDurationHours * 3600` for `ttlSeconds`. -/
def set (now : Nat) (keyword : Text) (data : TrendingData) (ttlSeconds : Nat)
    (st : CacheState) : CacheState :=
  if st.backendFails then st
  else
    let key := getCacheKey keyword
    { st with store :=
        (key, ⟨{ data with cached := true }, now + ttlSeconds * 1000⟩) ::
          st.store.filter (fun p => p.1 ≠ key) }

/-- The configured default TTL in seconds. -/
def defaultTtl : Nat := APP_LIMITS.cacheDurationHours * 3600

/-- Model of `getMultiple` (lines 91–102): sequential `get` per keyword, absent
keywords simply missing from the result map (written recursively, consuming
the keywords left to right as the `for` loop does). -/
def getMultiple (now : Nat) (keywords : List Text) (st : CacheState) :
    List (Text × TrendingData) × CacheState :=
  match keywords with
  | [] => ([], st)
  | k :: rest =>
    let (d?, st2) := get now k st
    let (m, st3) := getMultiple now rest st2
    match d? with
    | some d => ((k, d) :: m, st3)
    | none => (m, st3)

/-- Model of `setMultiple` (lines 104–112) at the default TTL. -/
def setMultiple (now : Nat) (dataMap : List (Text × TrendingData))
    (st : CacheState) : CacheState :=
  dataMap.foldl (fun st2 p => set now p.1 p.2 defaultTtl st2) st

end CacheService

/-! ## `TrendingService` (src/server/src/services/trendingService.ts)

The orchestrator is embedded with the current time, the fetch layer and the
cache state as explicit inputs; it returns the thrown-or-returned outcome,
the final cache state, and a ghost trace of the cache and network effects
it issued (for stating that a call performed no cache or search activity). -/

inductive Effect where
  | cacheGetE (key : Text)
  | cacheSetE (key : Text)
  | searchE (keywords : List Text)
deriving Repr, DecidableEq

namespace TrendingService

open CacheService

/-- Model of `isCacheValid`: the record age is below the configured duration.
JavaScript computes a possibly negative age that always passes; truncated
`Nat` subtraction yields zero there, passing as well. -/
def isCacheValid (now : Nat) (d : TrendingData) : Bool :=
  now - d.lastUpdated < APP_LIMITS.cacheDurationHours * 60 * 60 * 1000

/-- Model of `getFallbackData`. -/
def getFallbackData (now : Nat) (keyword : Text) : TrendingData :=
  { keyword := keyword,
    topics := [{ title := keyword ++ lit " Topics Unavailable",
                 summary := lit "Unable to fetch trending topics at this time. Please try again later.",
                 searchUrl := googleSearch keyword }],
    lastUpdated := now, cached := false }

/-- Model of `fetchFreshData` built over a `getTrendingTopics` fetch layer: each
keyword entry becomes a fresh record, topics truncated to the configured
per-keyword maximum. -/
def fetchFreshDataWith (fetch : List Text → Except Unit (List KeywordTopics))
    (now : Nat) (keywords : List Text) : Except Unit (List TrendingData) :=
  (fetch keywords).map fun items =>
    items.map fun item =>
      { keyword := item.keyword,
        topics := item.topics.take APP_LIMITS.maxResultsPerKeyword,
        lastUpdated := now, cached := false }

/-- Model of `Array.prototype.indexOf` (−1 when absent). -/
def jsIndexOf (l : List Text) (k : Text) : Int :=
  match l with
  | [] => -1
  | a :: rest =>
    if a = k then 0
    else
      let r := jsIndexOf rest k
      if r = -1 then -1 else r + 1

/-- The final `results.sort((a, b) => keywords.indexOf(a.keyword) -
keywords.indexOf(b.keyword))`: a stable sort on the input position
(`insertionSort` with a non-strict insert is stable, hence yields the same
list as the engine sort for this total preorder). -/
def sortByKeywordOrder (keywords : List Text) (rs : List TrendingData) :
    List TrendingData :=
  rs.insertionSort fun a b =>
    jsIndexOf keywords a.keyword ≤ jsIndexOf keywords b.keyword

/-- The cache-hit / cache-miss partition loop: hits are pushed onto the
result in input order, misses collect into `uncachedKeywords` (written
recursively; the recursion consumes the keywords left to right exactly as
the `for` loop does). -/
def partitionCached (now : Nat) (cachedData : List (Text × TrendingData)) :
    List Text → List TrendingData × List Text
  | [] => ([], [])
  | k :: rest =>
    let acc := partitionCached now cachedData rest
    match (cachedData.find? (·.1 = k)).map (·.2) with
    | some d =>
      if isCacheValid now d then (d :: acc.1, acc.2)
      else (acc.1, k :: acc.2)
    | none => (acc.1, k :: acc.2)

/-- The JavaScript `Map` write `cacheMap.set(k, v)`: overwriting keeps the
original insertion position. -/
def mapSet (m : List (Text × TrendingData)) (k : Text) (v : TrendingData) :
    List (Text × TrendingData) :=
  if m.any (·.1 = k) then m.map fun p => if p.1 = k then (k, v) else p
  else m ++ [(k, v)]

/-- Model of `freshData.forEach(data => cacheMap.set(data.keyword, data))`. -/
def buildCacheMap (fresh : List TrendingData) : List (Text × TrendingData) :=
  fresh.foldl (fun m d => mapSet m d.keyword d) []

/-- Model of `getTrendingTopics` (src/server, lines 15–58). -/
def getTrendingTopics (now : Nat)
    (fetchFresh : List Text → Except Unit (List TrendingData))
    (keywords : List Text) (st : CacheState) :
    Except Text (List TrendingData) × CacheState × List Effect :=
  if keywords.isEmpty then (.ok [], st, [])
  else if keywords.length > APP_LIMITS.maxKeywords then
    (.error (lit "Maximum 10 keywords allowed"), st, [])
  else
    let (cachedData, st1) := getMultiple now keywords st
    let log1 := keywords.map fun k => Effect.cacheGetE (getCacheKey k)
    let (hits, uncached) := partitionCached now cachedData keywords
    if uncached.isEmpty then
      (.ok (sortByKeywordOrder keywords hits), st1, log1)
    else
      match fetchFresh uncached with
      | .ok fresh =>
        let cacheMap := buildCacheMap fresh
        let st2 := setMultiple now cacheMap st1
        (.ok (sortByKeywordOrder keywords (hits ++ fresh)), st2,
         log1 ++ [Effect.searchE uncached] ++
           cacheMap.map fun p => Effect.cacheSetE (getCacheKey p.1))
      | .error _ =>
        (.ok (sortByKeywordOrder keywords
            (hits ++ uncached.map (getFallbackData now))), st1,
         log1 ++ [Effect.searchE uncached])

/-- Model of `refreshTopics` (lines 60–83): always fetches, rethrowing any fetch or
write failure as a refresh failure. -/
def refreshTopics (now : Nat)
    (fetchFresh : List Text → Except Unit (List TrendingData))
    (keywords : List Text) (st : CacheState) :
    Except Text (List TrendingData) × CacheState × List Effect :=
  if keywords.isEmpty then (.ok [], st, [])
  else if keywords.length > APP_LIMITS.maxKeywords then
    (.error (lit "Maximum 10 keywords allowed"), st, [])
  else
    match fetchFresh keywords with
    | .ok fresh =>
      let cacheMap := buildCacheMap fresh
      let st2 := setMultiple now cacheMap st
      (.ok fresh, st2,
       [Effect.searchE keywords] ++
         cacheMap.map fun p => Effect.cacheSetE (getCacheKey p.1))
    | .error _ =>
      (.error (lit "Failed to refresh trending topics"), st,
       [Effect.searchE keywords])

/-- Model of `CachedTrendingResponse` (the progressive-loading shape). -/
structure CachedTrendingResponse where
  cachedData : List TrendingData
  uncachedKeywords : List Text
  totalRequested : Nat
  cacheHits : Nat
deriving Repr, DecidableEq

/-- Model of `getCachedTopics` (src/unnamed/part_002, lines 60–104): cache-only
resolution; valid hits are returned with their `cached` flag forced on,
sorted into input order; no fetch is ever issued. -/
def getCachedTopics (now : Nat) (keywords : List Text) (st : CacheState) :
    Except Text CachedTrendingResponse × CacheState × List Effect :=
  if keywords.isEmpty then
    (.ok { cachedData := [], uncachedKeywords := [], totalRequested := 0,
           cacheHits := 0 }, st, [])
  else if keywords.length > APP_LIMITS.maxKeywords then
    (.error (lit "Maximum 10 keywords allowed"), st, [])
  else
    let (cachedData, st1) := getMultiple now keywords st
    let log1 := keywords.map fun k => Effect.cacheGetE (getCacheKey k)
    let (valid, uncached) := keywords.foldl
      (fun acc k =>
        match (cachedData.find? (·.1 = k)).map (·.2) with
        | some d =>
          if isCacheValid now d then
            (acc.1 ++ [{ d with cached := true }], acc.2)
          else (acc.1, acc.2 ++ [k])
        | none => (acc.1, acc.2 ++ [k]))
      (([] : List TrendingData), ([] : List Text))
    (.ok { cachedData := sortByKeywordOrder keywords valid,
           uncachedKeywords := uncached,
           totalRequested := keywords.length,
           cacheHits := valid.length }, st1, log1)

/-- Model of `RetentionUnit` of a custom cache-retention request. -/
inductive RetentionUnit where
  | hour
  | day
deriving Repr, DecidableEq

/-- Model of `calculateTtlSeconds` (src/unnamed/part_002, lines 264–275): clamp the
requested value into `[1,168]` hours or `[1,7]` days, then convert to
seconds. -/
def calculateTtlSeconds (value : Int) (unit : RetentionUnit) : Int :=
  match unit with
  | .hour => max 1 (min 168 value) * 3600
  | .day => max 1 (min 7 value) * 24 * 3600

end TrendingService

/-! ## Fetch-strategy selector -/

/-- A keyword request of the fetch-strategy selector. -/
structure KeywordRequest where
  keyword : Text
  maxResults : Nat
deriving Repr, DecidableEq

/-- Modelled from the spec: no fetch-strategy selector exists under the
sources (only the specification describes it).  Following §4.4 verbatim:
`totalTopics` is the sum of the requested `maxResults`, `estimatedTokens`
is `totalTopics * 100`, and the selector answers `false` (individual calls)
when `totalTopics > 12` or `estimatedTokens > 2000` or more than three
requests arrive, `true` otherwise. -/
def shouldBatch (requests : List KeywordRequest) : Bool :=
  let totalTopics := (requests.map (·.maxResults)).sum
  let estimatedTokens := totalTopics * 100
  !(decide (totalTopics > 12) || decide (estimatedTokens > 2000) ||
    decide (requests.length > 3))

/-! ## Helper lemmas -/

section CapLemmas

open OpenAIService

theorem salvStep1_length_le (kw : Text) (acc : List TrendingTopic)
    (m : Text × Text) (h : acc.length ≤ 5) :
    (salvStep1 kw acc m).length ≤ 5 := by
  unfold salvStep1
  split_ifs <;> (simp_all; try omega)

theorem salvStep2_length_le (kw : Text) (acc : List TrendingTopic)
    (m : Text × Text) (h : acc.length ≤ 5) :
    (salvStep2 kw acc m).length ≤ 5 := by
  unfold salvStep2
  split_ifs <;> (simp_all; try omega)

theorem foldl_salvStep1_length_le (kw : Text) (ms : List (Text × Text)) :
    ∀ acc : List TrendingTopic, acc.length ≤ 5 →
      (ms.foldl (salvStep1 kw) acc).length ≤ 5 := by
  induction ms with
  | nil => intro acc h; simpa using h
  | cons m tl ih =>
    intro acc h
    exact ih _ (salvStep1_length_le kw acc m h)

theorem foldl_salvStep2_length_le (kw : Text) (ms : List (Text × Text)) :
    ∀ acc : List TrendingTopic, acc.length ≤ 5 →
      (ms.foldl (salvStep2 kw) acc).length ≤ 5 := by
  induction ms with
  | nil => intro acc h; simpa using h
  | cons m tl ih =>
    intro acc h
    exact ih _ (salvStep2_length_le kw acc m h)

theorem repairStep_length_le (acc : List (Text × Text)) (m : Text × Text)
    (h : acc.length ≤ 10) : (repairStep acc m).length ≤ 10 := by
  unfold repairStep
  split_ifs <;> (simp_all; try omega)

theorem foldl_repairStep_length_le (ms : List (Text × Text)) :
    ∀ acc : List (Text × Text), acc.length ≤ 10 →
      (ms.foldl repairStep acc).length ≤ 10 := by
  induction ms with
  | nil => intro acc h; simpa using h
  | cons m tl ih =>
    intro acc h
    exact ih _ (repairStep_length_le acc m h)

theorem aggStep_length_le (n : Nat) (acc : List TrendingTopic)
    (p : Text × Text) (h : acc.length ≤ n) :
    (aggStep n acc p).length ≤ n := by
  unfold aggStep
  dsimp only
  split_ifs <;> (simp_all; try omega)

theorem foldl_aggStep_length_le (n : Nat) (ps : List (Text × Text)) :
    ∀ acc : List TrendingTopic, acc.length ≤ n →
      (ps.foldl (aggStep n) acc).length ≤ n := by
  induction ps with
  | nil => intro acc h; simpa using h
  | cons p tl ih =>
    intro acc h
    exact ih _ (aggStep_length_le n acc p h)

theorem textExtractLoop_length_le (n : Nat) (segs : List Text) :
    ∀ acc : List TrendingTopic, acc.length ≤ n →
      (textExtractLoop n acc segs).length ≤ n := by
  induction segs with
  | nil => intro acc h; simpa [textExtractLoop] using h
  | cons seg tl ih =>
    intro acc h
    by_cases hge : acc.length ≥ n
    · simpa [textExtractLoop, hge] using h
    · have hlt : acc.length < n := Nat.lt_of_not_le hge
      have hstep : ∀ t : TrendingTopic, (acc ++ [t]).length ≤ n := by
        intro t; simp; omega
      unfold textExtractLoop
      simp only [hge, if_false]
      split
      · exact ih _ h
      · split
        · exact ih _ (hstep _)
        · split
          · exact ih _ (hstep _)
          · split
            · exact ih _ (hstep _)
            · exact ih _ h

end CapLemmas

section UniqueLemmas

open OpenAIService

/-- Each multi-line salvage iteration either keeps the accumulator or
appends a topic whose title is fresh. -/
theorem salvStep2_cases (kw : Text) (acc : List TrendingTopic)
    (m : Text × Text) :
    salvStep2 kw acc m = acc ∨
      ∃ x, salvStep2 kw acc m = acc ++ [x] ∧ ∀ y ∈ acc, y.title ≠ x.title := by
  unfold salvStep2
  split_ifs with h1 h2 h3
  · exact .inl rfl
  · refine .inr ⟨_, rfl, ?_⟩
    intro y hy hcontra
    exact h3 (by
      simp only [List.any_eq_true]
      exact ⟨y, hy, by simp [hcontra]⟩)
  · exact .inl rfl
  · exact .inl rfl

/-- Folding the multi-line salvage step only appends, and every appended
topic carries a title that occurs exactly once in the final list. -/
theorem foldl_salvStep2_unique (kw : Text) (ms : List (Text × Text)) :
    ∀ acc : List TrendingTopic,
      ∃ added, ms.foldl (salvStep2 kw) acc = acc ++ added ∧
        ∀ x ∈ added,
          ((acc ++ added).countP fun y => decide (y.title = x.title)) = 1 := by
  induction ms with
  | nil =>
    intro acc
    exact ⟨[], by simp, by simp⟩
  | cons m tl ih =>
    intro acc
    rcases salvStep2_cases kw acc m with hkeep | ⟨x, hadd, hfresh⟩
    · simpa [List.foldl_cons, hkeep] using ih acc
    · obtain ⟨added2, heq, hprop⟩ := ih (acc ++ [x])
      refine ⟨x :: added2, ?_, ?_⟩
      · simp [List.foldl_cons, hadd, heq]
      · intro z hz
        have hfull : tl.foldl (salvStep2 kw) (acc ++ [x]) =
            acc ++ x :: added2 := by simpa using heq
        rcases List.mem_cons.1 hz with hzx | hz2
        · -- z = x : count the fresh title across the three segments
          rw [hzx]
          have hx : ((acc ++ [x]) ++ added2).countP
              (fun y => decide (y.title = x.title)) =
              (acc.countP fun y => decide (y.title = x.title)) + 1 +
                (added2.countP fun y => decide (y.title = x.title)) := by
            simp [List.countP_append]
            omega
          have hacc0 : (acc.countP fun y => decide (y.title = x.title)) = 0 := by
            apply List.countP_eq_zero.2
            intro y hy
            simpa using hfresh y hy
          have hadded0 :
              (added2.countP fun y => decide (y.title = x.title)) = 0 := by
            by_contra hne
            have hpos : 0 < added2.countP fun y => decide (y.title = x.title) :=
              Nat.pos_of_ne_zero hne
            obtain ⟨z2, hz2mem, hz2t⟩ := List.countP_pos_iff.1 hpos
            have hz2eq : z2.title = x.title := by simpa using hz2t
            have h1 := hprop z2 hz2mem
            have hx2 : ((acc ++ [x]) ++ added2).countP
                (fun y => decide (y.title = z2.title)) =
                (acc.countP fun y => decide (y.title = z2.title)) + 1 +
                  (added2.countP fun y => decide (y.title = z2.title)) := by
              simp [List.countP_append, hz2eq]
              omega
            have hzpos : 0 < added2.countP
                fun y => decide (y.title = z2.title) :=
              List.countP_pos_iff.2 ⟨z2, hz2mem, by simp⟩
            omega
          calc ((acc ++ x :: added2).countP
                fun y => decide (y.title = x.title))
              = ((acc ++ [x]) ++ added2).countP
                (fun y => decide (y.title = x.title)) := by simp
            _ = 1 := by omega
        · have h1 := hprop z hz2
          calc ((acc ++ x :: added2).countP
                fun y => decide (y.title = z.title))
              = ((acc ++ [x]) ++ added2).countP
                (fun y => decide (y.title = z.title)) := by simp
            _ = 1 := h1

/-- Each repair-harvest iteration either keeps the accumulator or appends a
pair whose (trimmed) title is fresh. -/
theorem repairStep_cases (acc : List (Text × Text)) (m : Text × Text) :
    repairStep acc m = acc ∨
      ∃ x, repairStep acc m = acc ++ [x] ∧ ∀ y ∈ acc, y.1 ≠ x.1 := by
  unfold repairStep
  split_ifs with h1 h2 h3
  · exact .inl rfl
  · refine .inr ⟨_, rfl, ?_⟩
    intro y hy hcontra
    exact h3 (by
      simp only [List.any_eq_true]
      exact ⟨y, hy, by simp [hcontra]⟩)
  · exact .inl rfl
  · exact .inl rfl

/-- The harvested object list of `repairTruncatedJson` has pairwise
distinct titles. -/
theorem foldl_repairStep_pairwise (ms : List (Text × Text)) :
    ∀ acc : List (Text × Text), acc.Pairwise (fun a b => a.1 ≠ b.1) →
      (ms.foldl repairStep acc).Pairwise (fun a b => a.1 ≠ b.1) := by
  induction ms with
  | nil => intro acc h; simpa using h
  | cons m tl ih =>
    intro acc h
    rcases repairStep_cases acc m with hkeep | ⟨x, hadd, hfresh⟩
    · simpa [List.foldl_cons, hkeep] using ih acc h
    · refine ih _ ?_
      rw [hadd]
      exact List.pairwise_append.2 ⟨h, by simp, by
        intro a ha b hb
        simp only [List.mem_singleton] at hb
        subst hb
        exact hfresh a ha⟩

end UniqueLemmas

section TrimLemmas

theorem dropWhile_self (p : Char → Bool) (l : Text) :
    (l.dropWhile p).dropWhile p = l.dropWhile p := by
  induction l with
  | nil => rfl
  | cons a t ih =>
    by_cases h : p a <;> simp [List.dropWhile_cons, h, ih]

theorem dropWhile_eq_self_of_prefix (p : Char → Bool) {u w : Text}
    (hu : u.dropWhile p = u) (hw : w <+: u) : w.dropWhile p = w := by
  cases w with
  | nil => rfl
  | cons a w2 =>
    obtain ⟨t, ht⟩ := hw
    have hpa : p a = false := by
      by_contra hcon
      have hpa2 : p a = true := by simpa using hcon
      have heq : u = (w2 ++ t).dropWhile p := by
        rw [← hu, ← ht]
        simp [List.dropWhile_cons, hpa2]
      have hlen : ((w2 ++ t).dropWhile p).length ≤ (w2 ++ t).length :=
        (List.dropWhile_suffix p).length_le
      have hul : u.length = ((w2 ++ t).dropWhile p).length := by rw [heq]
      have hul2 : u.length = w2.length + t.length + 1 := by
        rw [← ht]
        simp [List.length_append]
        try omega
      simp [List.length_append] at hlen
      omega
    simp [List.dropWhile_cons, hpa]

theorem jsTrim_idem (s : Text) : jsTrim (jsTrim s) = jsTrim s := by
  have h1 : (s.dropWhile jsSpace).dropWhile jsSpace = s.dropWhile jsSpace :=
    dropWhile_self jsSpace s
  have h3 : (jsTrim s).reverse =
      (s.dropWhile jsSpace).reverse.dropWhile jsSpace := by
    simp [jsTrim]
  have h4 : jsTrim s <+: s.dropWhile jsSpace := by
    rw [← List.reverse_suffix, h3]
    exact List.dropWhile_suffix jsSpace
  have h5 : (jsTrim s).dropWhile jsSpace = jsTrim s :=
    dropWhile_eq_self_of_prefix jsSpace h1 h4
  have h6 : (jsTrim s).reverse.dropWhile jsSpace = (jsTrim s).reverse := by
    rw [h3]
    exact dropWhile_self jsSpace _
  show ((((jsTrim s).dropWhile jsSpace).reverse).dropWhile jsSpace).reverse =
    jsTrim s
  rw [h5, h6, List.reverse_reverse]

end TrimLemmas

section SortLemmas

open TrendingService

theorem jsIndexOf_nonneg_of_mem {l : List Text} {k : Text} (h : k ∈ l) :
    0 ≤ jsIndexOf l k := by
  induction l with
  | nil => cases h
  | cons a rest ih =>
    by_cases ha : a = k
    · simp [jsIndexOf, ha]
    · have hk : k ∈ rest := by
        rcases List.mem_cons.1 h with h1 | h2
        · exact absurd h1.symm ha
        · exact h2
      have := ih hk
      simp only [jsIndexOf, ha, if_false]
      split <;> omega

theorem jsIndexOf_cons_self (a : Text) (rest : List Text) :
    jsIndexOf (a :: rest) a = 0 := by
  simp [jsIndexOf]

theorem jsIndexOf_cons_ne {a k : Text} {rest : List Text} (h : ¬a = k)
    (hm : k ∈ rest) : jsIndexOf (a :: rest) k = jsIndexOf rest k + 1 := by
  have hpos := jsIndexOf_nonneg_of_mem hm
  have hne : ¬jsIndexOf rest k = -1 := by omega
  simp only [jsIndexOf, h, if_false, hne]

theorem jsIndexOf_inj {l : List Text} (hnd : l.Nodup) {a b : Text}
    (ha : a ∈ l) (hb : b ∈ l) (heq : jsIndexOf l a = jsIndexOf l b) :
    a = b := by
  induction l with
  | nil => cases ha
  | cons c rest ih =>
    have hnd2 := (List.nodup_cons.1 hnd).2
    by_cases hca : c = a <;> by_cases hcb : c = b
    · rw [← hca, ← hcb]
    · have hbr : b ∈ rest := by
        rcases List.mem_cons.1 hb with h1 | h2
        · exact absurd h1.symm hcb
        · exact h2
      have hpos := jsIndexOf_nonneg_of_mem hbr
      rw [← hca, jsIndexOf_cons_self, jsIndexOf_cons_ne hcb hbr] at heq
      omega
    · have har : a ∈ rest := by
        rcases List.mem_cons.1 ha with h1 | h2
        · exact absurd h1.symm hca
        · exact h2
      have hpos := jsIndexOf_nonneg_of_mem har
      rw [← hcb, jsIndexOf_cons_self, jsIndexOf_cons_ne hca har] at heq
      omega
    · have har : a ∈ rest := by
        rcases List.mem_cons.1 ha with h1 | h2
        · exact absurd h1.symm hca
        · exact h2
      have hbr : b ∈ rest := by
        rcases List.mem_cons.1 hb with h1 | h2
        · exact absurd h1.symm hcb
        · exact h2
      rw [jsIndexOf_cons_ne hca har, jsIndexOf_cons_ne hcb hbr] at heq
      exact ih hnd2 har hbr (by omega)

theorem map_jsIndexOf_self {l : List Text} (hnd : l.Nodup) :
    l.map (jsIndexOf l) = (List.range l.length).map Int.ofNat := by
  induction l with
  | nil => rfl
  | cons a rest ih =>
    have hnd2 := (List.nodup_cons.1 hnd).2
    have hanot := (List.nodup_cons.1 hnd).1
    have hmap : rest.map (jsIndexOf (a :: rest)) =
        (rest.map (jsIndexOf rest)).map (· + 1) := by
      rw [List.map_map]
      apply List.map_congr_left
      intro y hy
      have hya : ¬a = y := fun hc => hanot (hc ▸ hy)
      simp [Function.comp, jsIndexOf_cons_ne hya hy]
    calc (a :: rest).map (jsIndexOf (a :: rest))
        = 0 :: (rest.map (jsIndexOf rest)).map (· + 1) := by
          simp only [List.map_cons, jsIndexOf_cons_self, hmap]
      _ = (List.range (a :: rest).length).map Int.ofNat := by
          rw [ih hnd2]
          simp only [List.length_cons, List.range_succ_eq_map,
            List.map_cons, List.map_map]
          refine congrArg (Int.ofNat 0 :: ·) ?_
          apply List.map_congr_left
          intro y _
          simp [Function.comp, Int.ofNat_succ]

theorem map_eq_of_inj_on {S : List Text} (f : Text → Int)
    (hinj : ∀ a ∈ S, ∀ b ∈ S, f a = f b → a = b) :
    ∀ X Y : List Text, (∀ x ∈ X, x ∈ S) → (∀ y ∈ Y, y ∈ S) →
      X.map f = Y.map f → X = Y := by
  intro X
  induction X with
  | nil =>
    intro Y _ _ h
    have := congrArg List.length h
    simp at this
    exact (List.eq_nil_of_length_eq_zero this.symm).symm
  | cons x X2 ih =>
    intro Y hX hY h
    cases Y with
    | nil => simp at h
    | cons y Y2 =>
      simp only [List.map_cons, List.cons.injEq] at h
      have hx : x = y :=
        hinj x (hX x (by simp)) y (hY y (by simp)) h.1
      rw [hx, ih Y2 (fun z hz => hX z (by simp [hz]))
        (fun z hz => hY z (by simp [hz])) h.2]

/-- Sorting a record list whose keywords form a permutation of a
duplicate-free input restores exactly the input order. -/
theorem sort_map_keyword (keywords : List Text) (hnd : keywords.Nodup)
    (l : List TrendingData)
    (hperm : (l.map (fun d => d.keyword)).Perm keywords) :
    (sortByKeywordOrder keywords l).map (fun d => d.keyword) = keywords := by
  haveI : IsTotal TrendingData
      (fun a b => jsIndexOf keywords a.keyword ≤ jsIndexOf keywords b.keyword) :=
    ⟨fun a b => Int.le_total _ _⟩
  haveI : IsTrans TrendingData
      (fun a b => jsIndexOf keywords a.keyword ≤ jsIndexOf keywords b.keyword) :=
    ⟨fun _ _ _ h1 h2 => le_trans h1 h2⟩
  have hs := List.sorted_insertionSort
    (fun a b => jsIndexOf keywords a.keyword ≤ jsIndexOf keywords b.keyword) l
  have hp := List.perm_insertionSort
    (fun a b => jsIndexOf keywords a.keyword ≤ jsIndexOf keywords b.keyword) l
  set sorted := sortByKeywordOrder keywords l with hsorted
  have hXperm : (sorted.map (fun d => d.keyword)).Perm keywords :=
    (hp.map (fun d => d.keyword)).trans hperm
  have hXsortedKeys :
      List.Pairwise (fun x y => jsIndexOf keywords x ≤ jsIndexOf keywords y)
        (sorted.map (fun d => d.keyword)) :=
    List.pairwise_map.2 hs
  have hA : List.Sorted (· ≤ ·)
      ((sorted.map (fun d => d.keyword)).map (jsIndexOf keywords)) :=
    List.pairwise_map.2 hXsortedKeys
  have hB : List.Sorted (· ≤ ·)
      (keywords.map (jsIndexOf keywords)) := by
    rw [map_jsIndexOf_self hnd]
    have := List.pairwise_lt_range keywords.length
    refine List.pairwise_map.2 ?_
    exact this.imp fun h => Int.ofNat_le.2 (Nat.le_of_lt h)
  have hABperm :
      (((sorted.map (fun d => d.keyword)).map (jsIndexOf keywords))).Perm
        (keywords.map (jsIndexOf keywords)) :=
    hXperm.map (jsIndexOf keywords)
  have hAB := List.eq_of_perm_of_sorted hABperm hA hB
  exact map_eq_of_inj_on (jsIndexOf keywords)
    (fun a ha b hb => jsIndexOf_inj hnd ha hb)
    (sorted.map (fun d => d.keyword)) keywords
    (fun x hx => hXperm.mem_iff.1 hx) (fun y hy => hy) hAB

end SortLemmas

section OrchestratorLemmas

open CacheService TrendingService

theorem getMultiple_backendFails (now : Nat) (keywords : List Text) :
    ∀ st : CacheState, st.backendFails = true →
      getMultiple now keywords st =
        ([], { st with stats :=
          { st.stats with errors := st.stats.errors + keywords.length } }) := by
  induction keywords with
  | nil =>
    intro st h
    simp [getMultiple]
  | cons k rest ih =>
    intro st h
    have hget : get now k st =
        (none, { st with stats :=
          { st.stats with errors := st.stats.errors + 1 } }) := by
      simp [CacheService.get, h]
    have hrec := ih { st with stats :=
      { st.stats with errors := st.stats.errors + 1 } } h
    simp only [getMultiple, hget, hrec]
    simp [Nat.add_assoc, Nat.add_comm 1 rest.length]

theorem setMultiple_backendFails (now : Nat)
    (dataMap : List (Text × TrendingData)) :
    ∀ st : CacheState, st.backendFails = true →
      setMultiple now dataMap st = st := by
  induction dataMap with
  | nil => intro st _; rfl
  | cons p tl ih =>
    intro st h
    have hset : set now p.1 p.2 defaultTtl st = st := by
      simp [CacheService.set, h]
    simp only [setMultiple, List.foldl_cons]
    rw [show set now p.1 p.2 defaultTtl st = st from hset]
    exact ih st h

theorem partitionCached_nil_data (now : Nat) (ks : List Text) :
    partitionCached now [] ks = ([], ks) := by
  induction ks with
  | nil => rfl
  | cons k rest ih => simp [partitionCached, ih, List.find?]

/-- Partitioning distributes every keyword to exactly one side; when every
cached record carries the keyword it is filed under, hit keywords plus miss
keywords form a permutation of the input. -/
theorem partitionCached_perm (now : Nat) (cd : List (Text × TrendingData))
    (hcoh : ∀ p ∈ cd, p.2.keyword = p.1) :
    ∀ ks : List Text,
      (((partitionCached now cd ks).1.map fun d => d.keyword) ++
        (partitionCached now cd ks).2).Perm ks := by
  intro ks
  induction ks with
  | nil => simp [partitionCached]
  | cons k rest ih =>
    simp only [partitionCached]
    cases hfind : (cd.find? (fun p => p.1 = k)).map (·.2) with
    | none =>
      simp only [hfind]
      exact (List.perm_middle).trans (ih.cons k)
    | some d =>
      have hdk : d.keyword = k := by
        cases hf2 : cd.find? (fun p => p.1 = k) with
        | none => rw [hf2] at hfind; cases hfind
        | some q =>
          rw [hf2] at hfind
          simp at hfind
          have hq1 : q.1 = k := by
            have := List.find?_some hf2
            simpa using this
          have hqmem := List.mem_of_find?_eq_some hf2
          rw [← hfind, hcoh q hqmem, hq1]
      simp only [hfind]
      by_cases hv : isCacheValid now d
      · simp only [hv, if_true, List.map_cons, List.cons_append]
        rw [hdk]
        exact ih.cons k
      · simp only [hv, if_false]
        exact (List.perm_middle).trans (ih.cons k)

end OrchestratorLemmas

section MiningLemmas

open OpenAIService

theorem sentencePairs_mem :
    ∀ (l : List Text), ∀ p ∈ sentencePairs l, p.1 ∈ l ∧ p.2 ∈ l
  | [] => by simp [sentencePairs]
  | [t] => by
    intro p hp
    simp only [sentencePairs, List.mem_singleton] at hp
    subst hp
    simp
  | t :: sm :: rest => by
    intro p hp
    simp only [sentencePairs, List.mem_cons] at hp
    rcases hp with hp1 | hp2
    · subst hp1
      simp
    · have := sentencePairs_mem rest p hp2
      exact ⟨List.mem_cons_of_mem _ (List.mem_cons_of_mem _ this.1),
             List.mem_cons_of_mem _ (List.mem_cons_of_mem _ this.2)⟩

theorem aggStep_mem (n : Nat) (acc : List TrendingTopic) (p : Text × Text)
    {t : TrendingTopic} (ht : t ∈ aggStep n acc p) :
    t ∈ acc ∨ (15 < t.title.length ∧ t.summary = (jsTrim p.2).take 250) := by
  unfold aggStep at ht
  dsimp only at ht
  split_ifs at ht with h1 h2 h3
  · rcases List.mem_append.1 ht with hmem | hnew
    · exact .inl hmem
    · right
      simp only [List.mem_singleton] at hnew
      subst hnew
      exact ⟨by simpa using h3, rfl⟩
  all_goals exact .inl ht

theorem foldl_aggStep_mem (n : Nat) (ps : List (Text × Text)) :
    ∀ acc : List TrendingTopic,
      (∀ t ∈ acc, 15 < t.title.length ∧ 10 < t.summary.length) →
      (∀ p ∈ ps, 10 < ((jsTrim p.2).take 250).length) →
      ∀ t ∈ ps.foldl (aggStep n) acc,
        15 < t.title.length ∧ 10 < t.summary.length := by
  induction ps with
  | nil =>
    intro acc hacc _ t ht
    exact hacc t (by simpa using ht)
  | cons p tl ih =>
    intro acc hacc hq t ht
    simp only [List.foldl_cons] at ht
    refine ih (aggStep n acc p) ?_
      (fun q hql => hq q (List.mem_cons_of_mem _ hql)) t ht
    intro u hu
    rcases aggStep_mem n acc p hu with hmem | ⟨htl, hsum⟩
    · exact hacc u hmem
    · exact ⟨htl, by rw [hsum]; exact hq p (by simp)⟩

end MiningLemmas

section RepairLemmas

open OpenAIService

/-- Each repair-harvest iteration keeps the accumulator or appends the
trimmed captures of the current match, which then passed the raw length
filters. -/
theorem repairStep_subset (acc : List (Text × Text)) (m : Text × Text) :
    ∀ o ∈ repairStep acc m,
      o ∈ acc ∨
        (o = (jsTrim m.1, jsTrim m.2) ∧ 3 < m.1.length ∧ 10 < m.2.length) := by
  intro o ho
  unfold repairStep at ho
  split_ifs at ho with h1 h2 h3
  · exact .inl ho
  · rcases List.mem_append.1 ho with hmem | hnew
    · exact .inl hmem
    · right
      simp only [List.mem_singleton] at hnew
      simp only [Bool.and_eq_true, decide_eq_true_eq] at h2
      exact ⟨hnew, h2.1, h2.2⟩
  · exact .inl ho
  · exact .inl ho

/-- Every object in the folded repair harvest originates from one of the
scanned matches, whose raw captures passed the `title > 3` and
`summary > 10` filters. -/
theorem foldl_repairStep_mem (ms : List (Text × Text)) :
    ∀ acc : List (Text × Text), ∀ o ∈ ms.foldl repairStep acc,
      o ∈ acc ∨ ∃ m ∈ ms,
        o = (jsTrim m.1, jsTrim m.2) ∧ 3 < m.1.length ∧ 10 < m.2.length := by
  induction ms with
  | nil =>
    intro acc o ho
    exact .inl (by simpa using ho)
  | cons m tl ih =>
    intro acc o ho
    simp only [List.foldl_cons] at ho
    rcases ih (repairStep acc m) o ho with hstep | ⟨m2, hm2, hprop⟩
    · rcases repairStep_subset acc m o hstep with hmem | hnew
      · exact .inl hmem
      · exact .inr ⟨m, by simp, hnew⟩
    · exact .inr ⟨m2, List.mem_cons_of_mem _ hm2, hprop⟩

end RepairLemmas

section NoBracketLemmas

open OpenAIService

theorem expectLit_drop {p s r : Text} (h : expectLit p s = some r) :
    r = s.drop p.length := by
  unfold expectLit at h
  split_ifs at h
  exact (Option.some.inj h).symm

theorem expectCh_tail {c : Char} {s r : Text} (h : expectCh c s = some r) :
    ∃ x, s = x :: r := by
  cases s with
  | nil => cases h
  | cons x rest =>
    simp only [expectCh] at h
    split_ifs at h
    exact ⟨x, by rw [Option.some.inj h]⟩

theorem not_mem_dropSp {c : Char} {s : Text} (h : c ∉ s) : c ∉ dropSp s :=
  fun hm => h ((List.dropWhile_suffix jsSpace).subset hm)

theorem not_mem_drop {c : Char} {s : Text} (n : Nat) (h : c ∉ s) :
    c ∉ s.drop n :=
  fun hm => h (List.drop_subset n s hm)

theorem lazyClose_eq_none (check : Text → Bool) :
    ∀ (s acc : Text), ']' ∉ s → lazyClose check acc s = none := by
  intro s
  induction s with
  | nil => intro acc _; rfl
  | cons c rest ih =>
    intro acc h
    have hc : ¬c = ']' := fun hcc =>
      h (hcc ▸ List.mem_cons_self c rest)
    have hr : ']' ∉ rest := fun hm => h (List.mem_cons_of_mem _ hm)
    have hcond : (decide (c = ']') && check rest) = false := by simp [hc]
    simp only [lazyClose, hcond, Bool.false_eq_true, if_false]
    exact ih (c :: acc) hr

theorem subIndex_singleton_none {c : Char} :
    ∀ s : Text, c ∉ s → subIndex? [c] s = none := by
  intro s
  induction s with
  | nil => intro _; rfl
  | cons a rest ih =>
    intro h
    have hpre : [c].isPrefixOf (a :: rest) = false := by
      by_contra hb
      have hb2 : [c] <+: a :: rest :=
        List.isPrefixOf_iff_prefix.1 (by simpa using hb)
      exact h (hb2.subset (List.mem_singleton_self c))
    have hr : c ∉ rest := fun hm => h (List.mem_cons_of_mem _ hm)
    simp [subIndex?, hpre, ih hr]

theorem lazyArrayFrom_none {content : Text} (h : ']' ∉ content) :
    lazyArrayFrom content = none := by
  unfold lazyArrayFrom
  cases hidx : subIndex? ['['] content with
  | none => rfl
  | some i =>
    have hs : subIndex? [']'] (content.drop (i + 1)) = none :=
      subIndex_singleton_none _ (not_mem_drop (i + 1) h)
    simp only [hs]

theorem scanStarts_none {α : Type} (f : Text → Option α)
    (hf : ∀ t : Text, ']' ∉ t → f t = none) :
    ∀ s : Text, ']' ∉ s → scanStarts f s = none := by
  intro s
  induction s with
  | nil => intro h; exact hf [] h
  | cons a rest ih =>
    intro h
    have hr : ']' ∉ rest := fun hm => h (List.mem_cons_of_mem _ hm)
    simp only [scanStarts, hf _ h]
    exact ih hr

theorem fencedArray_none (fence : Text) {content : Text}
    (h : ']' ∉ content) : fencedArray fence content = none := by
  unfold fencedArray
  refine scanStarts_none _ ?_ content h
  intro t ht
  cases hel : expectLit fence t with
  | none => simp [Option.bind, hel]
  | some r =>
    have hr1 : ']' ∉ dropSp r := by
      rw [expectLit_drop hel]
      exact not_mem_dropSp (not_mem_drop _ ht)
    cases hec : expectCh '[' (dropSp r) with
    | none => simp [Option.bind, hel, hec]
    | some r1 =>
      have hr2 : ']' ∉ r1 := by
        obtain ⟨x, hx⟩ := expectCh_tail hec
        intro hm
        exact hr1 (hx ▸ List.mem_cons_of_mem _ hm)
      simp [Option.bind, hel, hec, lazyClose_eq_none _ r1 [] hr2]

theorem markerArray_none (marker : Text) {content : Text}
    (h : ']' ∉ content) : markerArray marker content = none := by
  unfold markerArray
  refine scanStarts_none _ ?_ content h
  intro t ht
  cases hel : expectLit marker t with
  | none => simp [Option.bind, hel]
  | some r =>
    have hr1 : ']' ∉ dropSp r := by
      rw [expectLit_drop hel]
      exact not_mem_dropSp (not_mem_drop _ ht)
    cases hec : expectCh '[' (dropSp r) with
    | none => simp [Option.bind, hel, hec]
    | some r1 =>
      have hr2 : ']' ∉ r1 := by
        obtain ⟨x, hx⟩ := expectCh_tail hec
        intro hm
        exact hr1 (hx ▸ List.mem_cons_of_mem _ hm)
      simp [Option.bind, hel, hec, lazyClose_eq_none _ r1 [] hr2]

theorem toBracket_subset :
    ∀ {s r : Text}, toBracket s = some r → ∀ c ∈ r, c ∈ s := by
  intro s
  induction s with
  | nil => intro r h; cases h
  | cons a rest ih =>
    intro r h c hc
    unfold toBracket at h
    split_ifs at h with h1 h2
    · rw [← Option.some.inj h] at hc
      exact List.mem_cons_of_mem _ hc
    · exact List.mem_cons_of_mem _ (ih h c hc)

theorem lineMarkerArray_none (marker : Text) {content : Text}
    (h : ']' ∉ content) : lineMarkerArray marker content = none := by
  unfold lineMarkerArray
  refine scanStarts_none _ ?_ content h
  intro t ht
  split_ifs with hpre
  · cases htb : toBracket (t.drop marker.length) with
    | none => simp [Option.bind, htb]
    | some r1 =>
      have hr1 : ']' ∉ r1 := fun hm =>
        not_mem_drop marker.length ht (toBracket_subset htb _ hm)
      simp [Option.bind, htb, lazyClose_eq_none _ r1 [] hr1]
  · rfl

/-- Without a closing bracket no array-extraction pattern produces a
candidate. -/
theorem jsonCandidates_no_bracket {content : Text} (h : ']' ∉ content) :
    jsonCandidates content =
      [none, none, none, none, none, none, none] := by
  unfold jsonCandidates
  rw [lazyArrayFrom_none h, fencedArray_none _ h, fencedArray_none _ h,
    markerArray_none _ h, lineMarkerArray_none _ h, lineMarkerArray_none _ h]

/-- Without a closing bracket anywhere in the raw content, the whole
JSON-candidate loop — cleanup, truncation detection, repair, salvage — is
skipped, and the pipeline answers with the text-extraction, mining or
fallback strategies alone. -/
theorem parseWebSearchResponse_no_bracket (content kw : Text) (n : Nat)
    (h : ']' ∉ content) :
    parseWebSearchResponse content kw n =
      (if !(textExtract content n).isEmpty then textExtract content n
       else if !(aggressiveTextMining content kw n).isEmpty then
         aggressiveTextMining content kw n
       else finalFallbackTopics kw) := by
  unfold parseWebSearchResponse
  rw [jsonCandidates_no_bracket h]
  simp only [patternLoop]

end NoBracketLemmas

/-! ## Claim theorems -/

/-- Claim C5 counterexample: the stored record has `cached:false`, and a
`get` within the TTL returns it with the `cached` flag forced to `true` —
not a value equal to the record passed to `set`. -/
theorem c5_counterexample :
    (CacheService.get 2000 (lit "x")
        (CacheService.set 1000 (lit "x") ⟨lit "x", [], 1000, false⟩ 7200
          ⟨[], ⟨0, 0, 0⟩, false⟩)).1 ≠
      some ⟨lit "x", [], 1000, false⟩ := by
  decide

/-- Claim C5 (amended): with a working backend, after `set(k, r, ttl)` a
`get(k)` within `ttl` seconds returns `r` with its `cached` flag set to
`true` (equal to `r` exactly when `r` was already marked cached), and a
`get(k)` once `ttl` seconds have elapsed returns absent. -/
theorem c5_cache_round_trip (st : CacheService.CacheState) (k : Text)
    (r : TrendingData) (ttl t1 t2 : Nat) (hb : st.backendFails = false) :
    (t2 < t1 + ttl * 1000 →
      (CacheService.get t2 k (CacheService.set t1 k r ttl st)).1 =
        some { r with cached := true }) ∧
    (t1 + ttl * 1000 ≤ t2 →
      (CacheService.get t2 k (CacheService.set t1 k r ttl st)).1 = none) := by
  constructor <;> intro ht <;>
    simp [CacheService.get, CacheService.set, CacheService.lookupStore, hb,
      List.find?, ht, Nat.not_lt.2 ht]

/-- Claim C5 witness: a concrete round trip through the amended theorem. -/
theorem c5_cache_round_trip_witness :
    (CacheService.get 2000 (lit "x")
        (CacheService.set 1000 (lit "x") ⟨lit "x", [], 1000, true⟩ 7200
          ⟨[], ⟨0, 0, 0⟩, false⟩)).1 =
      some { keyword := lit "x", topics := [], lastUpdated := 1000,
             cached := true } :=
  (c5_cache_round_trip ⟨[], ⟨0, 0, 0⟩, false⟩ (lit "x")
    ⟨lit "x", [], 1000, true⟩ 7200 1000 2000 rfl).1 (by decide)

/-- Claim C6: the retention-to-TTL conversion clamps the requested value
into `[1,168]` for hours and `[1,7]` for days before converting to seconds:
999 hours and 168 hours agree, 0 days and 1 day agree, the result always
lies within the clamped range (no input is rejected), and in-range values
convert exactly. -/
theorem c6_retention_clamp :
    TrendingService.calculateTtlSeconds 999 .hour =
      TrendingService.calculateTtlSeconds 168 .hour ∧
    TrendingService.calculateTtlSeconds 0 .day =
      TrendingService.calculateTtlSeconds 1 .day ∧
    (∀ v : Int, 3600 ≤ TrendingService.calculateTtlSeconds v .hour ∧
      TrendingService.calculateTtlSeconds v .hour ≤ 168 * 3600) ∧
    (∀ v : Int, 86400 ≤ TrendingService.calculateTtlSeconds v .day ∧
      TrendingService.calculateTtlSeconds v .day ≤ 7 * 86400) ∧
    (∀ v : Int, 1 ≤ v → v ≤ 168 →
      TrendingService.calculateTtlSeconds v .hour = v * 3600) ∧
    (∀ v : Int, 1 ≤ v → v ≤ 7 →
      TrendingService.calculateTtlSeconds v .day = v * 86400) := by
  refine ⟨by decide, by decide, ?_, ?_, ?_, ?_⟩ <;>
    (intro v
     simp only [TrendingService.calculateTtlSeconds]) <;>
    try (intro h1 h2)
  all_goals
    rcases le_total v 1 with hv1 | hv1 <;> rcases le_total v 168 with hv2 | hv2 <;>
      rcases le_total v 7 with hv3 | hv3 <;>
      simp [max_def, min_def] <;> split_ifs <;> omega

/-- Claim C6 witness: an in-range hour value through the clamp theorem. -/
theorem c6_retention_clamp_witness :
    TrendingService.calculateTtlSeconds 5 .hour = 5 * 3600 :=
  c6_retention_clamp.2.2.2.2.1 5 (by decide) (by decide)

/-- Claim C8 counterexample (spec-modelled selector): five requests with
`maxResults` 2 each have a request count above three, so the selector
answers `false`, contradicting the claimed `true`. -/
theorem c8_counterexample :
    shouldBatch (List.replicate 5 ⟨lit "kw", 2⟩) = false := by
  decide

/-- Claim C8 (amended, spec-modelled): the selector answers `false` when
`totalTopics > 12` or `estimatedTokens > 2000` or more than three requests
arrive, and `true` otherwise; both five-keyword scenarios therefore answer
`false` (the request count alone exceeds three). -/
theorem c8_should_batch_amended :
    (∀ requests : List KeywordRequest,
      ((requests.map (·.maxResults)).sum > 12 ∨
        (requests.map (·.maxResults)).sum * 100 > 2000 ∨
        requests.length > 3) → shouldBatch requests = false) ∧
    (∀ requests : List KeywordRequest,
      (requests.map (·.maxResults)).sum ≤ 12 ∧
        (requests.map (·.maxResults)).sum * 100 ≤ 2000 ∧
        requests.length ≤ 3 → shouldBatch requests = true) ∧
    shouldBatch (List.replicate 5 ⟨lit "kw", 2⟩) = false ∧
    shouldBatch (List.replicate 5 ⟨lit "kw", 5⟩) = false ∧
    shouldBatch (List.replicate 3 ⟨lit "kw", 4⟩) = true := by
  refine ⟨?_, ?_, by decide, by decide, by decide⟩ <;>
    (intro reqs h
     simp only [shouldBatch, Bool.not_eq_true', Bool.not_eq_false',
       Bool.or_eq_true, Bool.or_eq_false_iff, decide_eq_true_eq,
       decide_eq_false_iff_not]
     omega)

/-- Claim C8 witness: the false-branch of the amended selector contract at
five requests of two results each. -/
theorem c8_should_batch_amended_witness :
    shouldBatch (List.replicate 5 ⟨lit "kw", 2⟩) = false :=
  c8_should_batch_amended.1 (List.replicate 5 ⟨lit "kw", 2⟩)
    (by right; right; decide)

/-- Claim C9: on an empty keyword (or section) list, `getTrendingTopics`,
`refreshTopics` and `getCachedTopics` return their empty result at once,
leaving the cache state untouched and issuing no cache or search effect. -/
theorem c9_empty_requests (now : Nat)
    (fetchFresh : List Text → Except Unit (List TrendingData))
    (st : CacheService.CacheState) :
    TrendingService.getTrendingTopics now fetchFresh [] st =
      (.ok [], st, []) ∧
    TrendingService.refreshTopics now fetchFresh [] st = (.ok [], st, []) ∧
    TrendingService.getCachedTopics now [] st =
      (.ok ⟨[], [], 0, 0⟩, st, []) :=
  ⟨rfl, rfl, rfl⟩

/-- Claim C10: the corrupted-JSON salvage returns at most five topics for
any input, independent of the caller, and every topic contributed by its
multi-line pattern scan has a title that occurs exactly once in the
returned list (the duplicate check). -/
theorem c10_salvage_cap_and_dedup (s kw : Text) :
    (OpenAIService.extractValidObjectsFromCorruptedJson s kw).length ≤ 5 ∧
    ∃ added, OpenAIService.extractValidObjectsFromCorruptedJson s kw =
        OpenAIService.salvagePhase1 s kw ++ added ∧
      ∀ x ∈ added,
        ((OpenAIService.extractValidObjectsFromCorruptedJson s kw).countP
          fun y => decide (y.title = x.title)) = 1 := by
  constructor
  · exact foldl_salvStep2_length_le kw _ _
      (foldl_salvStep1_length_le kw _ [] (by simp))
  · obtain ⟨added, heq, hprop⟩ := foldl_salvStep2_unique kw
      (scanMatches OpenAIService.salvagePatMulti (s.length + 1) s)
      (OpenAIService.salvagePhase1 s kw)
    refine ⟨added, heq, ?_⟩
    intro x hx
    have := hprop x hx
    calc ((OpenAIService.extractValidObjectsFromCorruptedJson s kw).countP
          fun y => decide (y.title = x.title))
        = ((OpenAIService.salvagePhase1 s kw ++ added).countP
          fun y => decide (y.title = x.title)) := by
          exact congrArg (List.countP fun y => decide (y.title = x.title)) heq
      _ = 1 := this

/-- Input of the C3 counterexample: plain text cut to the numbered-item
shape `N. Title: Summary` with a three-character title. -/
def c3Input : Text :=
  lit "1. abc: this summary sentence is long enough to pass the minimum segment length"

/-- Claim C3 counterexample: the structured-text extraction strategy emits a
topic whose title has length 3 ≤ 5, so the validity filter does not hold
for every strategy. -/
theorem c3_counterexample :
    (OpenAIService.parseWebSearchResponse c3Input (lit "ai") 5).any
      (fun t => decide (t.title.length ≤ 5)) = true := by
  decide

/-- Claim C3 (amended): the `title > 5` / `summary > 10` validity filter is
enforced by the JSON-based strategies — the direct/repaired JSON path
checks the trimmed fields, and the corrupted-JSON salvage rejects any
candidate whose raw captures are that short — and the aggressive mining
enforces the stronger bounds `title > 15`, `summary > 10`; the structured
text extraction enforces no such minimum. -/
theorem c3_validity_filter_amended :
    (∀ xs : List Json,
      ∀ t ∈ (xs.filter OpenAIService.validTopicFilter).map
        OpenAIService.mkJsonTopic,
      5 < t.title.length ∧ 10 < t.summary.length) ∧
    (∀ kw : Text, ∀ acc : List TrendingTopic, ∀ m : Text × Text,
      m.1.length ≤ 5 ∨ m.2.length ≤ 10 →
        OpenAIService.salvStep1 kw acc m = acc ∧
        OpenAIService.salvStep2 kw acc m = acc) ∧
    (∀ content kw : Text, ∀ n : Nat,
      ∀ t ∈ OpenAIService.aggressiveTextMining content kw n,
        15 < t.title.length ∧ 10 < t.summary.length) := by
  refine ⟨?_, ?_, ?_⟩
  · intro xs t ht
    simp only [List.mem_map] at ht
    obtain ⟨j, hj, rfl⟩ := ht
    have hf := (List.mem_filter.1 hj).2
    unfold OpenAIService.validTopicFilter at hf
    split at hf
    case h_2 => cases hf
    case h_1 tt sm heq1 heq2 =>
      simp only [Bool.and_eq_true, decide_eq_true_eq] at hf
      unfold OpenAIService.mkJsonTopic
      rw [heq1, heq2]
      dsimp only
      exact ⟨by tauto, by tauto⟩
  · intro kw acc m h
    have hcond : (decide (m.1.length > 5) && decide (m.2.length > 10)) = false := by
      rcases h with h | h <;> simp <;> omega
    constructor
    · unfold OpenAIService.salvStep1
      split_ifs with h1 h2
      · rw [hcond] at h2
        cases h2
      · rfl
      · rfl
    · unfold OpenAIService.salvStep2
      split_ifs with h1 h2 h3
      · rfl
      · rw [hcond] at h2
        cases h2
      · rfl
      · rfl
  · intro content kw n t ht
    refine foldl_aggStep_mem n
      (OpenAIService.sentencePairs (OpenAIService.miningSentences content)) []
      (by simp) ?_ t ht
    intro p hp
    have hmem := (sentencePairs_mem _ p hp).2
    unfold OpenAIService.miningSentences at hmem
    have hlen := (List.mem_filter.1 hmem).2
    have hmap := (List.mem_filter.1 hmem).1
    simp only [Bool.and_eq_true, decide_eq_true_eq] at hlen
    simp only [List.mem_map] at hmap
    obtain ⟨x, _, hx⟩ := hmap
    have hidem : jsTrim p.2 = p.2 := by
      rw [← hx]
      exact jsTrim_idem x
    rw [hidem]
    simp only [List.length_take]
    omega

/-- Claim C3 witness: the salvage step drops a candidate with a short
title. -/
theorem c3_validity_filter_amended_witness :
    OpenAIService.salvStep1 (lit "ai") [] (lit "abc", lit "long enough summary") = [] ∧
    OpenAIService.salvStep2 (lit "ai") [] (lit "abc", lit "long enough summary") = [] :=
  c3_validity_filter_amended.2.1 (lit "ai") []
    (lit "abc", lit "long enough summary") (.inl (by decide))

/-- Input of the C4 counterexample: a well-formed array of four valid
topics. -/
def c4Input : Text :=
  lit "[\x7b\"title\":\"Alpha topic one\",\"summary\":\"First summary long enough here.\"\x7d,\x7b\"title\":\"Beta topic two\",\"summary\":\"Second summary long enough here.\"\x7d,\x7b\"title\":\"Gamma topic three\",\"summary\":\"Third summary long enough here.\"\x7d,\x7b\"title\":\"Delta topic four\",\"summary\":\"Fourth summary long enough here.\"\x7d]"

set_option maxRecDepth 1000000 in
/-- Claim C4 counterexample: `parse(raw, keyword, 3)` on an array with four
valid candidates returns all four topics — the JSON path never truncates to
`maxResults`. -/
theorem c4_counterexample :
    3 < (OpenAIService.parseWebSearchResponse c4Input (lit "ai") 3).length := by
  decide

/-- Claim C4 (amended): the structured-text and aggressive-mining strategies
return at most `maxResults` topics; the JSON path returns every valid topic
regardless of `maxResults`, and it is the `fetchFreshData` step of the orchestrator
that separately slices each keyword to the configured per-keyword
maximum. -/
theorem c4_maxresults_amended :
    (∀ content : Text, ∀ n : Nat,
      (OpenAIService.textExtract content n).length ≤ n) ∧
    (∀ content kw : Text, ∀ n : Nat,
      (OpenAIService.aggressiveTextMining content kw n).length ≤ n) ∧
    (∀ fetch : List Text → Except Unit (List KeywordTopics), ∀ now : Nat,
      ∀ kws : List Text, ∀ l : List TrendingData,
      TrendingService.fetchFreshDataWith fetch now kws = .ok l →
      ∀ d ∈ l, d.topics.length ≤ APP_LIMITS.maxResultsPerKeyword) := by
  refine ⟨?_, ?_, ?_⟩
  · intro content n
    exact textExtractLoop_length_le n _ [] (by simp)
  · intro content kw n
    exact foldl_aggStep_length_le n _ [] (by simp)
  · intro fetch now kws l hok d hd
    unfold TrendingService.fetchFreshDataWith at hok
    cases hfetch : fetch kws with
    | error e =>
      rw [hfetch] at hok
      cases hok
    | ok items =>
      rw [hfetch] at hok
      simp only [Except.map] at hok
      have hl : l = items.map fun item =>
          ({ keyword := item.keyword,
             topics := item.topics.take APP_LIMITS.maxResultsPerKeyword,
             lastUpdated := now, cached := false } : TrendingData) := by
        cases hok
        rfl
      rw [hl] at hd
      simp only [List.mem_map] at hd
      obtain ⟨item, _, rfl⟩ := hd
      exact List.length_take_le _ _

/-- Claim C4 witness: the orchestrator slice at a concrete fetch layer. -/
theorem c4_maxresults_amended_witness :
    ∀ d ∈ [({ keyword := lit "k", topics := [], lastUpdated := 0,
              cached := false } : TrendingData)],
      d.topics.length ≤ APP_LIMITS.maxResultsPerKeyword :=
  c4_maxresults_amended.2.2 (fun _ => .ok [⟨lit "k", []⟩]) 0 [lit "k"]
    [⟨lit "k", [], 0, false⟩] rfl

/-- Input of the C2 counterexample: the spec scenario — one complete valid
object followed by a dangling object truncated mid-string, with no closing
bracket anywhere. -/
def c2Truncated : Text :=
  lit "[\x7b\"title\":\"AI breakthrough research\",\"summary\":\"Researchers announced a new model today that improves efficiency significantly.\"\x7d,\x7b\"title\":\"Short lived story that barely fits her"

/-- The C2 scenario with the truncation point containing a closing bracket,
so that an array-shaped candidate is still extracted. -/
def c2TruncatedBracket : Text :=
  lit "[\x7b\"title\":\"AI breakthrough research\",\"summary\":\"Researchers announced a new model today that improves efficiency significantly.\"\x7d,\x7b\"title\":\"Short lived story ]"

set_option maxRecDepth 1000000 in
/-- Claim C2 counterexample: fed the spec scenario itself (truncated
mid-string, no closing bracket), the pipeline does not yield the one
complete object — every array-extraction pattern requires a `]`, so the
repair step is never reached and aggressive mining returns a mangled
topic instead. -/
theorem c2_counterexample :
    (OpenAIService.parseWebSearchResponse c2Truncated (lit "ai") 5).map
        (fun t => t.title) =
      [lit "[\x7b\"title\":\"AI breakthrough research\""] ∧
    (OpenAIService.parseWebSearchResponse c2Truncated (lit "ai") 5).map
        (fun t => t.title) ≠
      [lit "AI breakthrough research"] := by
  constructor <;> decide

set_option maxRecDepth 1000000 in
/-- Claim C2 (amended): when the truncated payload still contains a closing
bracket, the candidate is extracted, the truncation heuristic fires, and
the repair yields exactly the syntactically complete object before the
truncation point — concretely, the spec scenario with a bracket in the
dangling remainder yields exactly the one complete topic.  In general
(for every input string) the repair harvest never produces a malformed
entry: it holds at most ten objects with pairwise distinct trimmed titles,
and every harvested object is the trimmed pair of captures of one of the
three scanned repair patterns whose raw captures passed the `title > 3`
and `summary > 10` length filters.  Moreover, for every payload with no
closing bracket anywhere, the parse never reaches the repair step: it
equals the structured text extraction when that is non-empty, else
aggressive sentence mining when that is non-empty, else the final
fallback. -/
theorem c2_truncation_repair_amended :
    OpenAIService.parseWebSearchResponse c2TruncatedBracket (lit "ai") 5 =
      [{ title := lit "AI breakthrough research",
         summary := lit "Researchers announced a new model today that improves efficiency significantly.",
         searchUrl := googleSearch (lit "AI breakthrough research") }] ∧
    (∀ s : Text, (OpenAIService.repairObjects s).length ≤ 10) ∧
    (∀ s : Text, (OpenAIService.repairObjects s).Pairwise
      fun a b => a.1 ≠ b.1) ∧
    (∀ s : Text, ∀ o ∈ OpenAIService.repairObjects s,
      ∃ m ∈ scanMatches OpenAIService.repairPat1 (s.length + 1) s ++
            scanMatches OpenAIService.repairPat2 (s.length + 1) s ++
            scanMatches OpenAIService.repairPat3 (s.length + 1) s,
        o = (jsTrim m.1, jsTrim m.2) ∧ 3 < m.1.length ∧ 10 < m.2.length) ∧
    (∀ content kw : Text, ∀ n : Nat, ']' ∉ content →
      OpenAIService.parseWebSearchResponse content kw n =
        (if !(OpenAIService.textExtract content n).isEmpty then
           OpenAIService.textExtract content n
         else if !(OpenAIService.aggressiveTextMining content kw n).isEmpty then
           OpenAIService.aggressiveTextMining content kw n
         else OpenAIService.finalFallbackTopics kw)) := by
  refine ⟨by decide, ?_, ?_, ?_, ?_⟩
  · intro s
    exact foldl_repairStep_length_le _ [] (by simp)
  · intro s
    exact foldl_repairStep_pairwise _ [] (by simp)
  · intro s o ho
    have ho2 : o ∈ (scanMatches OpenAIService.repairPat1 (s.length + 1) s ++
        scanMatches OpenAIService.repairPat2 (s.length + 1) s ++
        scanMatches OpenAIService.repairPat3 (s.length + 1) s).foldl
          OpenAIService.repairStep [] := ho
    rcases foldl_repairStep_mem _ [] o ho2 with h0 | h1
    · exact absurd h0 (List.not_mem_nil o)
    · exact h1
  · intro content kw n h
    exact parseWebSearchResponse_no_bracket content kw n h

set_option maxRecDepth 1000000 in
/-- Claim C2 witness: the no-bracket conjunct applied at the spec scenario
input itself, whose truncation point contains no closing bracket. -/
theorem c2_truncation_repair_amended_witness :
    OpenAIService.parseWebSearchResponse c2Truncated (lit "ai") 5 =
      (if !(OpenAIService.textExtract c2Truncated 5).isEmpty then
         OpenAIService.textExtract c2Truncated 5
       else if !(OpenAIService.aggressiveTextMining c2Truncated (lit "ai")
           5).isEmpty then
         OpenAIService.aggressiveTextMining c2Truncated (lit "ai") 5
       else OpenAIService.finalFallbackTopics (lit "ai")) :=
  c2_truncation_repair_amended.2.2.2.2 c2Truncated (lit "ai") 5 (by decide)

/-- The per-keyword web-search fetch layer always succeeds and returns one
record per requested keyword, in order. -/
theorem fetchFreshWeb_keywords (oracle : Text → Option Text) (n now : Nat)
    (ks : List Text) :
    ∃ fresh,
      TrendingService.fetchFreshDataWith
        (fun ks2 => .ok (OpenAIService.getTrendingTopicsWeb oracle ks2 n))
        now ks = .ok fresh ∧ (fresh.map fun d => d.keyword) = ks := by
  refine ⟨_, rfl, ?_⟩
  unfold OpenAIService.getTrendingTopicsWeb
  simp only [List.map_map]
  trans (ks.map id)
  · refine List.map_congr_left fun k hk => ?_
    simp only [Function.comp_apply, id_eq]
    cases oracle k <;> rfl
  · exact List.map_id ks

/-- Running the orchestrator against an always-erroring cache backend: every
lookup degrades to a miss (counting an error), the whole input goes through
the fetch layer, and the cache write is swallowed. -/
theorem getTrendingTopics_backendFails_run (now : Nat)
    (st : CacheService.CacheState) (keywords : List Text)
    (fetchFresh : List Text → Except Unit (List TrendingData))
    (fresh : List TrendingData) (hfail : st.backendFails = true)
    (hne : keywords.isEmpty = false)
    (hlen : ¬keywords.length > APP_LIMITS.maxKeywords)
    (hfetch : fetchFresh keywords = .ok fresh) :
    TrendingService.getTrendingTopics now fetchFresh keywords st =
      (.ok (TrendingService.sortByKeywordOrder keywords fresh),
       { st with stats :=
          { st.stats with errors := st.stats.errors + keywords.length } },
       (keywords.map fun k => Effect.cacheGetE (CacheService.getCacheKey k)) ++
         [Effect.searchE keywords] ++
         (TrendingService.buildCacheMap fresh).map fun p =>
           Effect.cacheSetE (CacheService.getCacheKey p.1)) := by
  unfold TrendingService.getTrendingTopics
  rw [getMultiple_backendFails now keywords st hfail]
  simp only [hne, Bool.false_eq_true, if_false, if_neg hlen,
    partitionCached_nil_data, hfetch]
  simp
  exact setMultiple_backendFails now (TrendingService.buildCacheMap fresh) _
    (by simp [hfail])

/-- Claim C7: with a cache backend that errors on every `get`/`set`, each
lookup counts an error and degrades to a miss; for any non-empty request
list within the keyword limit the call still returns — without throwing — a
`TrendingData` for every requested keyword (one per keyword, as a
permutation counted with multiplicity) while the errors counter grows by
one per keyword; the only failure that crosses the boundary is the
caller error for exceeding the keyword limit. -/
theorem c7_error_swallowing (now : Nat) (st : CacheService.CacheState)
    (keywords : List Text) (oracle : Text → Option Text) (n : Nat)
    (hfail : st.backendFails = true) :
    (keywords ≠ [] → keywords.length ≤ APP_LIMITS.maxKeywords →
      ∃ l,
        (TrendingService.getTrendingTopics now
            (TrendingService.fetchFreshDataWith
              (fun ks => .ok (OpenAIService.getTrendingTopicsWeb oracle ks n))
              now) keywords st).1 = .ok l ∧
        (l.map fun d => d.keyword).Perm keywords ∧
        (TrendingService.getTrendingTopics now
            (TrendingService.fetchFreshDataWith
              (fun ks => .ok (OpenAIService.getTrendingTopicsWeb oracle ks n))
              now) keywords st).2.1.stats.errors =
          st.stats.errors + keywords.length) ∧
    (APP_LIMITS.maxKeywords < keywords.length →
      (TrendingService.getTrendingTopics now
          (TrendingService.fetchFreshDataWith
            (fun ks => .ok (OpenAIService.getTrendingTopicsWeb oracle ks n))
            now) keywords st).1 =
        .error (lit "Maximum 10 keywords allowed")) := by
  constructor
  · intro hne hlen
    obtain ⟨fresh, hfetch, hkeys⟩ := fetchFreshWeb_keywords oracle n now keywords
    have hempty : keywords.isEmpty = false := by
      cases keywords
      · exact absurd rfl hne
      · rfl
    have hrun := getTrendingTopics_backendFails_run now st keywords _ fresh
      hfail hempty (by omega) hfetch
    rw [hrun]
    refine ⟨TrendingService.sortByKeywordOrder keywords fresh, rfl, ?_, rfl⟩
    have hperm := (List.perm_insertionSort
      (fun a b => TrendingService.jsIndexOf keywords a.keyword ≤
        TrendingService.jsIndexOf keywords b.keyword) fresh).map
      fun d => d.keyword
    rw [hkeys] at hperm
    exact hperm
  · intro hgt
    have hempty : keywords.isEmpty = false := by
      cases keywords
      · simp [APP_LIMITS.maxKeywords] at hgt
      · rfl
    unfold TrendingService.getTrendingTopics
    simp only [hempty, Bool.false_eq_true, if_false, if_pos hgt]

/-- Claim C7 witness: a single keyword against the always-failing backend
still resolves. -/
theorem c7_error_swallowing_witness :
    ∃ l,
      (TrendingService.getTrendingTopics 5000
          (TrendingService.fetchFreshDataWith
            (fun ks => .ok (OpenAIService.getTrendingTopicsWeb
              (fun _ => none) ks 3)) 5000)
          [lit "x"] ⟨[], ⟨0, 0, 0⟩, true⟩).1 = .ok l ∧
      (l.map fun d => d.keyword).Perm [lit "x"] ∧
      (TrendingService.getTrendingTopics 5000
          (TrendingService.fetchFreshDataWith
            (fun ks => .ok (OpenAIService.getTrendingTopicsWeb
              (fun _ => none) ks 3)) 5000)
          [lit "x"] ⟨[], ⟨0, 0, 0⟩, true⟩).2.1.stats.errors = 0 + 1 :=
  (c7_error_swallowing 5000 ⟨[], ⟨0, 0, 0⟩, true⟩ [lit "x"]
    (fun _ => none) 3 rfl).1 (by simp) (by decide)

/-- Batch reply of the C1 counterexample: a well-shaped array whose single
item carries keyword `b` although `a` was requested. -/
def c1Content : Text :=
  lit "[\x7b\"keyword\":\"b\",\"topics\":[\x7b\"title\":\"Topic one\",\"summary\":\"Summary text\"\x7d]\x7d]"

set_option maxRecDepth 1000000 in
/-- Claim C1 counterexample: with an empty cache and a successfully parsed
batch reply whose item names keyword `b` instead of the requested `a`, the
resolve call returns one record for `b` and none for `a` — the requested
keyword is silently dropped and the output does not mirror the input
list. -/
theorem c1_counterexample :
    (match (TrendingService.getTrendingTopics 5000
        (TrendingService.fetchFreshDataWith
          (OpenAIServiceBatch.getTrendingTopics (.ok c1Content)) 5000)
        [lit "a"] ⟨[], ⟨0, 0, 0⟩, false⟩).1 with
      | .ok l => l.map fun d => d.keyword
      | .error _ => []) = [lit "b"] ∧ ¬[lit "b"] = [lit "a"] := by
  constructor <;> decide

/-- Claim C1 (amended): provided the requested keywords are distinct, the
request is non-empty and within the keyword limit, every cached record
carries the keyword it is filed under, and the fetch layer — when it
succeeds — returns exactly one entry per uncached keyword (as the
batch parser guarantees on its fallback path but not on a successful parse
with mismatched keywords), the resolve call returns exactly one
`TrendingData` per input keyword, in input order, whether each entry came
from cache, fresh fetch or fallback substitution. -/
theorem c1_ordering_amended (now : Nat) (st : CacheService.CacheState)
    (keywords : List Text)
    (fetchFresh : List Text → Except Unit (List TrendingData))
    (hnd : keywords.Nodup) (hne : keywords ≠ [])
    (hlen : keywords.length ≤ APP_LIMITS.maxKeywords)
    (hcoh : ∀ p ∈ (CacheService.getMultiple now keywords st).1,
      p.2.keyword = p.1)
    (hfetch : ∀ fresh,
      fetchFresh (TrendingService.partitionCached now
        (CacheService.getMultiple now keywords st).1 keywords).2 = .ok fresh →
      (fresh.map fun d => d.keyword).Perm
        (TrendingService.partitionCached now
          (CacheService.getMultiple now keywords st).1 keywords).2) :
    ∃ l, (TrendingService.getTrendingTopics now fetchFresh keywords st).1 =
        .ok l ∧ (l.map fun d => d.keyword) = keywords := by
  have hempty : keywords.isEmpty = false := by
    cases keywords
    · exact absurd rfl hne
    · rfl
  have hperm0 := partitionCached_perm now
    (CacheService.getMultiple now keywords st).1 hcoh keywords
  unfold TrendingService.getTrendingTopics
  simp only [hempty, Bool.false_eq_true, if_false,
    if_neg (by omega : ¬keywords.length > APP_LIMITS.maxKeywords)]
  rcases hgm : CacheService.getMultiple now keywords st with ⟨cd, st1⟩
  rw [hgm] at hperm0 hfetch
  simp only at hperm0 hfetch
  rcases hpc : TrendingService.partitionCached now cd keywords with ⟨hits, unc⟩
  rw [hpc] at hperm0 hfetch
  simp only at hperm0 hfetch
  by_cases hu : unc.isEmpty = true
  · have hunc : unc = [] := List.isEmpty_iff.1 hu
    simp only [hpc, hu, if_true]
    refine ⟨_, rfl, ?_⟩
    apply sort_map_keyword keywords hnd
    rw [hunc] at hperm0
    simpa using hperm0
  · have hu2 : unc.isEmpty = false := by
      cases h2 : unc.isEmpty
      · rfl
      · exact absurd h2 hu
    simp only [hpc, hu2, Bool.false_eq_true, if_false]
    cases hf : fetchFresh unc with
    | ok fresh =>
      refine ⟨_, rfl, ?_⟩
      apply sort_map_keyword keywords hnd
      have hfr := hfetch fresh hf
      rw [List.map_append]
      exact (hfr.append_left _).trans hperm0
    | error e =>
      refine ⟨_, rfl, ?_⟩
      apply sort_map_keyword keywords hnd
      have hmapfb : ((unc.map (TrendingService.getFallbackData now)).map
          fun d => d.keyword) = unc := by
        rw [List.map_map]
        trans (unc.map id)
        · exact List.map_congr_left fun k _ => rfl
        · exact List.map_id unc
      rw [List.map_append, hmapfb]
      exact hperm0

/-- Batch reply of the C1 witness: both requested keywords present, in
swapped order, with empty topic arrays. -/
def c1SwappedContent : Text :=
  lit "[\x7b\"keyword\":\"beta\",\"topics\":[]\x7d,\x7b\"keyword\":\"alpha\",\"topics\":[]\x7d]"

set_option maxRecDepth 1000000 in
/-- Claim C1 witness: two keywords resolved through the amended theorem
against a batch reply listing them in swapped order come back in input
order. -/
theorem c1_ordering_amended_witness :
    ∃ l, (TrendingService.getTrendingTopics 5000
        (TrendingService.fetchFreshDataWith
          (OpenAIServiceBatch.getTrendingTopics (.ok c1SwappedContent)) 5000)
        [lit "alpha", lit "beta"] ⟨[], ⟨0, 0, 0⟩, false⟩).1 = .ok l ∧
      (l.map fun d => d.keyword) = [lit "alpha", lit "beta"] := by
  refine c1_ordering_amended 5000 ⟨[], ⟨0, 0, 0⟩, false⟩
    [lit "alpha", lit "beta"] _ (by decide) (by decide) (by decide)
    (by decide) ?_
  intro fresh h
  have hcalc : TrendingService.fetchFreshDataWith
      (OpenAIServiceBatch.getTrendingTopics (.ok c1SwappedContent)) 5000
      (TrendingService.partitionCached 5000
        (CacheService.getMultiple 5000 [lit "alpha", lit "beta"]
          ⟨[], ⟨0, 0, 0⟩, false⟩).1 [lit "alpha", lit "beta"]).2 =
      .ok [⟨lit "beta", [], 5000, false⟩, ⟨lit "alpha", [], 5000, false⟩] := by
    decide
  rw [hcalc] at h
  injection h with h2
  rw [← h2]
  decide

end TrendingModel
